import Mathlib

/-!
Verification development for the core of the cacheD concurrent cache.

The data model and the operations are shallowly embedded from the Rust
sources (`cached.rs`, `command/command_executor.rs`, `upsert.rs`,
`store/stored_value.rs`).  Components whose implementation files are not part
of the source tree (the `Store` map, the `AdmissionPolicy`, the `TTLTicker`,
the `CommandType` union, the configuration) are modelled from the
specification; each such definition carries a doc comment saying so.

Machine integers: Rust `i64` weights are modelled as `Int`, `u64` ids and
hashes as `Nat`.  The claims under study never exercise wrap-around
arithmetic, so no modular reduction is applied.  Wall-clock instants are
modelled as natural numbers (`Timestamp`); the injectable `Clock` becomes the
`now` field threaded through the state.
-/

/-- Rust type `Weight = i64`. -/
abbrev Weight := Int

/-- Rust type `KeyId = u64`. -/
abbrev KeyId := Nat

/-- Rust `u64` key hashes. -/
abbrev KeyHash := Nat

/-- Instants of the injectable clock, in abstract time units. -/
abbrev Timestamp := Nat

/-- Association-list lookup: the value bound to the first pair whose key is
`a` (the shallow model of map lookup used throughout). -/
def assocFind {α β : Type} [DecidableEq α] : List (α × β) → α → Option β
  | [], _ => none
  | (a', b) :: rest, a => if a' = a then some b else assocFind rest a

/-- Association-list removal: drops every pair bound to key `a`. -/
def assocRemove {α β : Type} [DecidableEq α] (xs : List (α × β)) (a : α) :
    List (α × β) :=
  xs.filter (fun p => decide (p.1 ≠ a))

/-- Association-list insert-or-replace: binds `a` to `b`, dropping older
bindings of `a` (the model of map insert). -/
def assocPut {α β : Type} [DecidableEq α] (xs : List (α × β)) (a : α) (b : β) :
    List (α × β) :=
  (a, b) :: assocRemove xs a

theorem assocFind_eq_none {α β : Type} [DecidableEq α]
    (xs : List (α × β)) (a : α) :
    assocFind xs a = none ↔ ∀ p ∈ xs, p.1 ≠ a := by
  induction xs with
  | nil => simp [assocFind]
  | cons hd tl ih =>
    obtain ⟨a', b⟩ := hd
    by_cases h : a' = a
    · subst h
      simp [assocFind]
    · simp [assocFind, h, ih]

theorem assocFind_remove_self {α β : Type} [DecidableEq α]
    (xs : List (α × β)) (a : α) :
    assocFind (assocRemove xs a) a = none := by
  rw [assocFind_eq_none]
  intro p hp
  have := List.of_mem_filter hp
  simpa using this

theorem assocFind_remove_ne {α β : Type} [DecidableEq α]
    (xs : List (α × β)) (a a' : α) (h : a' ≠ a) :
    assocFind (assocRemove xs a) a' = assocFind xs a' := by
  induction xs with
  | nil => rfl
  | cons hd tl ih =>
    obtain ⟨k, b⟩ := hd
    by_cases hk : k = a
    · subst hk
      have hka : ¬ k = a' := fun hcon => h (hcon ▸ rfl)
      simp [assocRemove, assocFind, hka, ih]
      simpa [assocRemove] using ih
    · by_cases hk' : k = a'
      · subst hk'
        simp [assocRemove, assocFind, hk]
      · simp [assocRemove, assocFind, hk, hk']
        simpa [assocRemove] using ih

theorem assocFind_put_self {α β : Type} [DecidableEq α]
    (xs : List (α × β)) (a : α) (b : β) :
    assocFind (assocPut xs a b) a = some b := by
  simp [assocPut, assocFind]

theorem assocRemove_subset {α β : Type} [DecidableEq α]
    (xs : List (α × β)) (a : α) {p : α × β} (hp : p ∈ assocRemove xs a) :
    p ∈ xs :=
  List.mem_of_mem_filter hp

theorem assocRemove_length_le {α β : Type} [DecidableEq α]
    (xs : List (α × β)) (a : α) :
    (assocRemove xs a).length ≤ xs.length :=
  List.length_filter_le _ _

theorem assocRemove_length_lt {α β : Type} [DecidableEq α]
    (xs : List (α × β)) (a : α) {b : β} (h : assocFind xs a = some b) :
    (assocRemove xs a).length < xs.length := by
  induction xs with
  | nil => simp [assocFind] at h
  | cons hd tl ih =>
    obtain ⟨k, v⟩ := hd
    by_cases hk : k = a
    · subst hk
      have hle : (assocRemove tl k).length ≤ tl.length :=
        assocRemove_length_le tl k
      have : (assocRemove ((k, v) :: tl) k).length = (assocRemove tl k).length := by
        simp [assocRemove]
      rw [this]
      simpa using Nat.lt_succ_of_le hle
    · have hfind : assocFind tl a = some b := by
        simpa [assocFind, hk] using h
      have := ih hfind
      have hcons : (assocRemove ((k, v) :: tl) a).length
          = (assocRemove tl a).length + 1 := by
        simp [assocRemove, hk]
      rw [hcons]
      simpa using Nat.succ_lt_succ this

/-- Command outcome statuses.  Modelled from the spec: the declaring file
`command/mod.rs` is not part of the source tree; the spec's data model lists
`CommandStatus ∈ {Accepted, Rejected, Shutdown}`. -/
inductive CommandStatus where
  | Accepted
  | Rejected
  | Shutdown
deriving DecidableEq, Repr

/-- Embeds `KeyDescription` (per the spec's data model: opaque key,
monotonically increasing `key_id`, `key_hash`, `weight`); its constructor in
`key_description.rs` is not part of the source tree but every field is pinned
by its uses in `cached.rs`. -/
structure KeyDescription (Key : Type) where
  key : Key
  id : KeyId
  hash : KeyHash
  weight : Weight
deriving DecidableEq, Repr

/-- Embeds `StoredValue` from `store/stored_value.rs`. -/
structure StoredValue (Value : Type) where
  value : Value
  key_id : KeyId
  expire_after : Option Timestamp
deriving DecidableEq, Repr

/-- Embeds `StoredValue::never_expiring`. -/
def StoredValue.never_expiring {Value : Type} (value : Value) (key_id : KeyId) :
    StoredValue Value :=
  { value := value, key_id := key_id, expire_after := none }

/-- Embeds `StoredValue::expiring`: the expiry is `clock.now()` plus the
time to live. -/
def StoredValue.expiring {Value : Type} (value : Value) (key_id : KeyId)
    (time_to_live : Nat) (now : Timestamp) : StoredValue Value :=
  { value := value, key_id := key_id, expire_after := some (now + time_to_live) }

/-- Models `Clock::has_passed`.  Modelled from the spec: the clock "supports
[the] equality test: has the given instant passed?", i.e. whether `now` is
strictly beyond the instant. -/
def clockHasPassed (now : Timestamp) (instant : Timestamp) : Bool :=
  decide (instant < now)

/-- Embeds `StoredValue::is_alive` from `store/stored_value.rs`: alive when
there is no expiry, or when the clock has not passed the expiry. -/
def StoredValue.is_alive {Value : Type} (sv : StoredValue Value)
    (now : Timestamp) : Bool :=
  match sv.expire_after with
  | some expire_after => ! clockHasPassed now expire_after
  | none => true

/-- Modelled from the spec: the Store is a sharded map from key to
`StoredValue`.  Sharding only spreads lock contention, so the model collapses
the shards into one association list. -/
structure Store (Key Value : Type) where
  entries : List (Key × StoredValue Value)
deriving DecidableEq, Repr

/-- Modelled from the spec: `Store.put` inserts or replaces the entry for the
key with a never-expiring stored value. -/
def Store.put {Key Value : Type} [DecidableEq Key] (st : Store Key Value)
    (key : Key) (value : Value) (key_id : KeyId) : Store Key Value :=
  ⟨assocPut st.entries key (StoredValue.never_expiring value key_id)⟩

/-- Modelled from the spec: `Store.put_with_ttl` inserts or replaces the entry
with an expiring stored value and returns the computed expiry for the caller
to register with the TTL Ticker. -/
def Store.put_with_ttl {Key Value : Type} [DecidableEq Key]
    (st : Store Key Value) (key : Key) (value : Value) (key_id : KeyId)
    (ttl : Nat) (now : Timestamp) : Timestamp × Store Key Value :=
  (now + ttl, ⟨assocPut st.entries key (StoredValue.expiring value key_id ttl now)⟩)

/-- Modelled from the spec: `Store.get_ref` read-locks the shard and honors
TTL by consulting the clock: if `is_alive == false`, returns `None`. -/
def Store.get_ref {Key Value : Type} [DecidableEq Key] (st : Store Key Value)
    (key : Key) (now : Timestamp) : Option (StoredValue Value) :=
  match assocFind st.entries key with
  | some sv => if sv.is_alive now then some sv else none
  | none => none

/-- Modelled from the spec: `Store.get` is `get_ref` followed by a clone of
the stored value. -/
def Store.get {Key Value : Type} [DecidableEq Key] (st : Store Key Value)
    (key : Key) (now : Timestamp) : Option Value :=
  (st.get_ref key now).map (fun sv => sv.value)

/-- Modelled from the spec: `Store.delete` removes the entry and returns its
identity and expiry so the worker can clean up Admission and TTL state. -/
def Store.delete {Key Value : Type} [DecidableEq Key] (st : Store Key Value)
    (key : Key) : Option (KeyId × Option Timestamp) × Store Key Value :=
  match assocFind st.entries key with
  | some sv => (some (sv.key_id, sv.expire_after), ⟨assocRemove st.entries key⟩)
  | none => (none, st)

/-- Modelled from the spec: `Store.mark_deleted` is the fast advisory path
that makes subsequent reads miss; the spec's simple implementation removes the
entry immediately and lets the worker's later delete be idempotent. -/
def Store.mark_deleted {Key Value : Type} [DecidableEq Key]
    (st : Store Key Value) (key : Key) : Store Key Value :=
  ⟨assocRemove st.entries key⟩

/-- Modelled from the spec: `Store.clear` drops all shards. -/
def Store.clear {Key Value : Type} : Store Key Value := ⟨[]⟩

/-- Modelled from the spec: the TTL Ticker owns `key_id → expire_after`
mappings grouped by expiry second.  The second-granularity sharding only
amortizes scan cost, so the model keeps the flat set of
`(key_id, expire_after)` pairs. -/
structure TTLTicker where
  entries : List (KeyId × Timestamp)
deriving DecidableEq, Repr

/-- Modelled from the spec: `TTLTicker.put` records the mapping. -/
def TTLTicker.put (t : TTLTicker) (key_id : KeyId) (expire_after : Timestamp) :
    TTLTicker :=
  ⟨(key_id, expire_after) :: t.entries⟩

/-- Modelled from the spec: `TTLTicker.delete` removes the mapping (no-op when
missing). -/
def TTLTicker.delete (t : TTLTicker) (key_id : KeyId)
    (expire_after : Timestamp) : TTLTicker :=
  ⟨t.entries.filter (fun p => decide (p ≠ (key_id, expire_after)))⟩

/-- Modelled from the spec: `TTLTicker.update` is a delete of the old expiry
followed by a put of the new one. -/
def TTLTicker.update (t : TTLTicker) (key_id : KeyId) (old_expiry : Timestamp)
    (new_expiry : Timestamp) : TTLTicker :=
  (t.delete key_id old_expiry).put key_id new_expiry

/-- Modelled from the spec: `TTLTicker.get`, the diagnostic lookup used by
tests. -/
def TTLTicker.get (t : TTLTicker) (key_id : KeyId) (expire_after : Timestamp) :
    Option Timestamp :=
  if (key_id, expire_after) ∈ t.entries then some expire_after else none

/-- Modelled from the spec: `TTLTicker.clear` drops all state. -/
def TTLTicker.clear : TTLTicker := ⟨[]⟩

/-- Modelled from the spec: the Admission Policy state — the Key-Weight Table
`key_id → (key_hash, weight)`, the cached `weight_used` and
`total_cache_weight`, and the frequency sketch.  The Count-Min Sketch with
doorkeeper is collapsed to its observable interface, the per-hash estimate,
kept as an association list of counters. -/
structure AdmissionPolicy where
  table : List (KeyId × (KeyHash × Weight))
  weight_used : Weight
  total_cache_weight : Weight
  freq : List (KeyHash × Nat)
deriving DecidableEq, Repr

/-- Modelled from the spec: the sketch estimate of a hash (zero when never
observed). -/
def AdmissionPolicy.estimate (p : AdmissionPolicy) (hash : KeyHash) : Nat :=
  (assocFind p.freq hash).getD 0

/-- Modelled from the spec: `AdmissionPolicy.weight_of`, a trivial lookup. -/
def AdmissionPolicy.weight_of (p : AdmissionPolicy) (key_id : KeyId) :
    Option Weight :=
  (assocFind p.table key_id).map (fun e => e.2)

/-- Modelled from the spec: `AdmissionPolicy.contains`, a trivial lookup. -/
def AdmissionPolicy.contains (p : AdmissionPolicy) (key_id : KeyId) : Bool :=
  (assocFind p.table key_id).isSome

/-- Modelled from the spec: removal from the Key-Weight Table that keeps
`weight_used` consistent. -/
def AdmissionPolicy.delete (p : AdmissionPolicy) (key_id : KeyId) :
    AdmissionPolicy :=
  match assocFind p.table key_id with
  | some e =>
      { p with
        table := assocRemove p.table key_id,
        weight_used := p.weight_used - e.2 }
  | none => p

/-- Modelled from the spec: the Admission-Policy side of an `UpdateWeight`
command ("just call into the Admission Policy"): the entry's weight is
replaced in place and `weight_used` adjusted accordingly.  The repository's
own test `update_the_value_weight_and_remove_time_to_live_of_an_existing_key`
(in `cached.rs`) pins this behavior: an upsert with weight 300 under a
total cache weight of 100 leaves `weight_of(key_id) == Some(300)`. -/
def AdmissionPolicy.update_weight (p : AdmissionPolicy) (key_id : KeyId)
    (weight : Weight) : AdmissionPolicy :=
  match assocFind p.table key_id with
  | some e =>
      { p with
        table := assocPut p.table key_id (e.1, weight),
        weight_used := p.weight_used - e.2 + weight }
  | none => p

/-- Modelled from the spec: `AdmissionPolicy.clear` resets the Key-Weight
Table, the used weight and the sketch. -/
def AdmissionPolicy.clear (p : AdmissionPolicy) : AdmissionPolicy :=
  { p with table := [], weight_used := 0, freq := [] }

/-- The whole cache state seen by the facade: the Store, the Admission
Policy, the TTL Ticker, the injected clock's current instant, the
`IncreasingIdGenerator` counter and the `is_shutting_down` flag of
`cached.rs`.  The access pool only feeds the frequency sketch and is dropped
from the model: none of the claims depends on read-frequency side effects. -/
structure CacheState (Key Value : Type) where
  store : Store Key Value
  policy : AdmissionPolicy
  ttl : TTLTicker
  now : Timestamp
  next_key_id : KeyId
  is_shutting_down : Bool
deriving DecidableEq, Repr

/-- The configuration surface the embedded operations need (`config.rs` is
not part of the source tree): the key hasher, the weight calculation function
as used by `cached.rs` (three arguments, the last being `has_ttl`), and the
total cache weight. -/
structure Config (Key Value : Type) where
  key_hash_fn : Key → KeyHash
  weight_calculation_fn : Key → Value → Bool → Weight
  total_cache_weight : Weight

/-- The initial cache state for a configuration: everything empty, the clock
at zero, ids from zero, not shutting down. -/
def initState {Key Value : Type} (cfg : Config Key Value) :
    CacheState Key Value :=
  { store := ⟨[]⟩,
    policy :=
      { table := [], weight_used := 0,
        total_cache_weight := cfg.total_cache_weight, freq := [] },
    ttl := ⟨[]⟩,
    now := 0,
    next_key_id := 0,
    is_shutting_down := false }

/-- The room left under the weight budget (`total_cache_weight − weight_used`
of the spec's admission step 3). -/
def freeSpace {Key Value : Type} (s : CacheState Key Value) : Weight :=
  s.policy.total_cache_weight - s.policy.weight_used

/-- Victim preference of the Sampled-LFU selection: lower sketch estimate
wins, ties broken by the lower `key_id`. -/
def victimPreferred (p : AdmissionPolicy) (a b : KeyId × (KeyHash × Weight)) :
    Bool :=
  decide (p.estimate a.2.1 < p.estimate b.2.1
    ∨ (p.estimate a.2.1 = p.estimate b.2.1 ∧ a.1 < b.1))

/-- Modelled from the spec: victim selection draws a sample of residents and
takes the member with the lowest estimate (tie-break: lowest `key_id`).  The
sample is drawn uniformly at random; this model determinizes the choice by
sampling the whole table. -/
def pickVictim (p : AdmissionPolicy) :
    Option (KeyId × (KeyHash × Weight)) :=
  match p.table with
  | [] => none
  | e :: rest =>
      some (rest.foldl (fun best c => if victimPreferred p c best then c else best) e)

/-- Modelled from the spec: evicting a victim removes it from the Key-Weight
Table, subtracts its weight, and runs the delete hook, which removes the key
from the Store and the TTL Ticker. -/
def evictKey {Key Value : Type} (key_id : KeyId) (s : CacheState Key Value) :
    CacheState Key Value :=
  { s with
    policy := s.policy.delete key_id,
    store := ⟨s.store.entries.filter (fun p => decide (p.2.key_id ≠ key_id))⟩,
    ttl := ⟨s.ttl.entries.filter (fun p => decide (p.1 ≠ key_id))⟩ }

/-- Modelled from the spec: the victim-selection loop of `maybe_add` step 4.
It runs until the candidate fits, the table is exhausted, or a victim at
least as frequent as the candidate is met (then the candidate is rejected:
the `false` result).  `fuel` bounds the recursion; callers pass the table
size, which the loop never exceeds because every round evicts one entry. -/
def evictionLoop {Key Value : Type} (candidate_freq : Nat)
    (kd : KeyDescription Key) :
    Nat → CacheState Key Value → Bool × CacheState Key Value
  | 0, s => (true, s)
  | fuel + 1, s =>
    if kd.weight ≤ freeSpace s then (true, s)
    else
      match pickVictim s.policy with
      | none => (true, s)
      | some victim =>
        if candidate_freq ≤ s.policy.estimate victim.2.1 then (false, s)
        else evictionLoop candidate_freq kd fuel (evictKey victim.1 s)

/-- Inserting an admitted candidate into the Key-Weight Table, adding its
weight to `weight_used` (spec steps 3 and 5). -/
def admitCandidate {Key Value : Type} (kd : KeyDescription Key)
    (s : CacheState Key Value) : CacheState Key Value :=
  { s with
    policy :=
      { s.policy with
        table := (kd.id, (kd.hash, kd.weight)) :: s.policy.table,
        weight_used := s.policy.weight_used + kd.weight } }

/-- Modelled from the spec: `AdmissionPolicy::maybe_add` (§4.2).
Step 1 rejects a candidate heavier than the whole budget; step 2 updates the
weight in place when the `key_id` is already resident; step 3 admits directly
when there is room; steps 4–5 run Sampled-LFU victim selection and admit
unless an incumbent at least as frequent as the candidate is found.  The
delete hook reaches the Store and TTL Ticker through the state. -/
def maybe_add {Key Value : Type} (kd : KeyDescription Key)
    (s : CacheState Key Value) : CommandStatus × CacheState Key Value :=
  if s.policy.total_cache_weight < kd.weight then (CommandStatus.Rejected, s)
  else
    match assocFind s.policy.table kd.id with
    | some e =>
        (CommandStatus.Accepted,
          { s with
            policy :=
              { s.policy with
                table := assocPut s.policy.table kd.id (kd.hash, kd.weight),
                weight_used := s.policy.weight_used - e.2 + kd.weight } })
    | none =>
      if kd.weight ≤ freeSpace s then (CommandStatus.Accepted, admitCandidate kd s)
      else
        let r := evictionLoop (s.policy.estimate kd.hash) kd
          s.policy.table.length s
        if r.1 then (CommandStatus.Accepted, admitCandidate kd r.2)
        else (CommandStatus.Rejected, r.2)

/-- Embeds `TypeOfExpiryUpdate` as consumed by `cached.rs`: the expiry
transition reported by `Store::update`, carrying the key id and the involved
expiries. -/
inductive TypeOfExpiryUpdate where
  | Added (key_id : KeyId) (expiry : Timestamp)
  | Deleted (key_id : KeyId) (expiry : Timestamp)
  | Updated (key_id : KeyId) (old_expiry : Timestamp) (new_expiry : Timestamp)
  | Unchanged
deriving DecidableEq, Repr

/-- The response of `Store::update` as consumed by `cached.rs`: whether an
update happened, the key id when it did, the handed-back value when it did
not, and the expiry transition. -/
structure UpdateResponse (Value : Type) where
  did_update_happen : Bool
  key_id : Option KeyId
  value : Option Value
  type_of_expiry_update : TypeOfExpiryUpdate
deriving DecidableEq, Repr

/-- Embeds `UpdateResponse::key_id_or_panic`. -/
def UpdateResponse.key_id_or_panic {Value : Type} (r : UpdateResponse Value) :
    KeyId :=
  r.key_id.getD 0

/-- Modelled from the spec: `Store.update(key, new_value?, new_ttl?,
remove_ttl)`, the atomic in-place update used by upsert.  On an absent key no
update happens and the optional value is handed back.  On a present key the
value is replaced when supplied, and the expiry transition is: a supplied TTL
yields `Added` (no previous expiry) or `Updated` (previous expiry);
otherwise `remove_ttl` with a previous expiry yields `Deleted`; otherwise
`Unchanged`. -/
def Store.update {Key Value : Type} [DecidableEq Key] (st : Store Key Value)
    (key : Key) (value : Option Value) (time_to_live : Option Nat)
    (remove_time_to_live : Bool) (now : Timestamp) :
    UpdateResponse Value × Store Key Value :=
  match assocFind st.entries key with
  | none =>
      ({ did_update_happen := false, key_id := none, value := value,
         type_of_expiry_update := TypeOfExpiryUpdate.Unchanged }, st)
  | some sv =>
      let new_value := value.getD sv.value
      let transition : TypeOfExpiryUpdate :=
        match time_to_live, sv.expire_after with
        | some ttl, none => TypeOfExpiryUpdate.Added sv.key_id (now + ttl)
        | some ttl, some old => TypeOfExpiryUpdate.Updated sv.key_id old (now + ttl)
        | none, some old =>
            if remove_time_to_live then TypeOfExpiryUpdate.Deleted sv.key_id old
            else TypeOfExpiryUpdate.Unchanged
        | none, none => TypeOfExpiryUpdate.Unchanged
      let new_expiry : Option Timestamp :=
        match transition with
        | TypeOfExpiryUpdate.Added _ e => some e
        | TypeOfExpiryUpdate.Updated _ _ e => some e
        | TypeOfExpiryUpdate.Deleted _ _ => none
        | TypeOfExpiryUpdate.Unchanged => sv.expire_after
      ({ did_update_happen := true, key_id := some sv.key_id, value := none,
         type_of_expiry_update := transition },
       ⟨assocPut st.entries key
         { value := new_value, key_id := sv.key_id, expire_after := new_expiry }⟩)

/-- Modelled from the spec: `Store.update_time_to_live` as consumed by the
worker's `UpdateTTL` arm in `command_executor.rs`: on a present key the
expiry becomes `now + ttl` and the response carries the key id, the previous
expiry and the new expiry; on an absent key, `None`. -/
def Store.update_time_to_live {Key Value : Type} [DecidableEq Key]
    (st : Store Key Value) (key : Key) (ttl : Nat) (now : Timestamp) :
    Option (KeyId × Option Timestamp × Timestamp) × Store Key Value :=
  match assocFind st.entries key with
  | some sv =>
      (some (sv.key_id, sv.expire_after, now + ttl),
       ⟨assocPut st.entries key { sv with expire_after := some (now + ttl) }⟩)
  | none => (none, st)

/-- The command union of the pipeline.  `command/mod.rs` is not part of the
source tree; the constructors are pinned by their uses: `Put`, `PutWithTTL`
and `Delete` appear in both `cached.rs` and `command_executor.rs`,
`UpdateWeight` is sent by `cached.rs` (and listed by the spec), and
`UpdateTTL` is matched by the worker in `command_executor.rs`. -/
inductive CommandType (Key Value : Type) where
  | Put (kd : KeyDescription Key) (value : Value)
  | PutWithTTL (kd : KeyDescription Key) (value : Value) (ttl : Nat)
  | Delete (key : Key)
  | UpdateTTL (key : Key) (ttl : Nat)
  | UpdateWeight (key_id : KeyId) (weight : Weight)
deriving DecidableEq, Repr

namespace CommandExecutor

/-- Embeds `CommandExecutor::put` from `command_executor.rs`: admit through
`maybe_add` with the store-delete hook; on `Accepted`, put into the Store
under the command's key id; otherwise only the rejection statistic moves. -/
def put {Key Value : Type} [DecidableEq Key] (kd : KeyDescription Key)
    (value : Value) (s : CacheState Key Value) :
    CommandStatus × CacheState Key Value :=
  let r := maybe_add kd s
  if r.1 = CommandStatus.Accepted then
    (r.1, { r.2 with store := r.2.store.put kd.key value kd.id })
  else (r.1, r.2)

/-- Embeds `CommandExecutor::put_with_ttl` from `command_executor.rs`: admit
through `maybe_add`; on `Accepted`, put into the Store with the TTL and
register the returned expiry with the TTL Ticker. -/
def put_with_ttl {Key Value : Type} [DecidableEq Key] (kd : KeyDescription Key)
    (value : Value) (ttl : Nat) (s : CacheState Key Value) :
    CommandStatus × CacheState Key Value :=
  let r := maybe_add kd s
  if r.1 = CommandStatus.Accepted then
    let pr := r.2.store.put_with_ttl kd.key value kd.id ttl r.2.now
    (r.1, { r.2 with store := pr.2, ttl := r.2.ttl.put kd.id pr.1 })
  else (r.1, r.2)

/-- Embeds `CommandExecutor::delete` from `command_executor.rs`: delete from
the Store; when an entry was removed, delete its key id from the Admission
Policy and, when it had an expiry, from the TTL Ticker, and answer
`Accepted`; otherwise answer `Rejected`. -/
def delete {Key Value : Type} [DecidableEq Key] (key : Key)
    (s : CacheState Key Value) : CommandStatus × CacheState Key Value :=
  let r := s.store.delete key
  match r.1 with
  | some key_id_expiry =>
      let s₁ := { s with store := r.2, policy := s.policy.delete key_id_expiry.1 }
      let s₂ :=
        match key_id_expiry.2 with
        | some expiry => { s₁ with ttl := s₁.ttl.delete key_id_expiry.1 expiry }
        | none => s₁
      (CommandStatus.Accepted, s₂)
  | none => (CommandStatus.Rejected, s)

/-- Embeds `CommandExecutor::update_ttl` from `command_executor.rs`: update
the time to live in the Store; on a present key reflect the expiry change in
the TTL Ticker (`put` when there was no previous expiry, `update` otherwise)
and answer `Accepted`; on an absent key answer `Rejected`. -/
def update_ttl {Key Value : Type} [DecidableEq Key] (key : Key) (ttl : Nat)
    (s : CacheState Key Value) : CommandStatus × CacheState Key Value :=
  let r := s.store.update_time_to_live key ttl s.now
  match r.1 with
  | some response =>
      let s₁ := { s with store := r.2 }
      let s₂ :=
        match response.2.1 with
        | none => { s₁ with ttl := s₁.ttl.put response.1 response.2.2 }
        | some existing_expiry =>
            { s₁ with ttl := s₁.ttl.update response.1 existing_expiry response.2.2 }
      (CommandStatus.Accepted, s₂)
  | none => (CommandStatus.Rejected, s)

end CommandExecutor

/-- Embeds the dispatch of the worker loop in `CommandExecutor::spin`
(`command_executor.rs`).  The match in the source handles exactly `Put`,
`PutWithTTL`, `Delete` and `UpdateTTL`; it has no arm for `UpdateWeight`, so
that command yields `none` — the worker cannot process it. -/
def executeCommand {Key Value : Type} [DecidableEq Key] :
    CommandType Key Value → CacheState Key Value →
    Option (CommandStatus × CacheState Key Value)
  | CommandType.Put kd value, s => some (CommandExecutor.put kd value s)
  | CommandType.PutWithTTL kd value ttl, s =>
      some (CommandExecutor.put_with_ttl kd value ttl s)
  | CommandType.Delete key, s => some (CommandExecutor.delete key s)
  | CommandType.UpdateTTL key ttl, s => some (CommandExecutor.update_ttl key ttl s)
  | CommandType.UpdateWeight _ _, _ => none

/-- What a public facade call produces: the shutdown error from
`shutdown_result()`, a panic of one of the `assert!` guards, a command handed
to the Command Executor's channel, or the already-completed
`CommandAcknowledgement::accepted()` that upsert returns when nothing needs
the worker. -/
inductive CommandOutcome (Key Value : Type) where
  | shutdownError
  | panicked
  | sent (command : CommandType Key Value)
  | acceptedImmediately
deriving DecidableEq, Repr

/-- Embeds `UpsertRequest` from `upsert.rs`. -/
structure UpsertRequest (Key Value : Type) where
  key : Key
  value : Option Value
  weight : Option Weight
  time_to_live : Option Nat
  remove_time_to_live : Bool
deriving DecidableEq, Repr

/-- Embeds `UpsertRequest::updated_weight` from `upsert.rs`: the request's
weight when supplied, otherwise the weight calculation applied to the key and
the supplied value.  In this source file the weight-calculation function
receives only the key and the value — no `has_ttl` flag (see the C7
analysis). -/
def UpsertRequest.updated_weight {Key Value : Type}
    (req : UpsertRequest Key Value) (weight_calculation_fn : Key → Value → Weight) :
    Option Weight :=
  match req.weight with
  | some w => some w
  | none => req.value.map (fun v => weight_calculation_fn req.key v)

/-- Formalization of the claim's wording (spec §4.7 step 2) for comparison:
the effective weight is the request's weight when supplied and otherwise
`weight_calculation_fn(key, value, has_ttl)` where `has_ttl` says whether a
time to live was supplied. -/
def updated_weight_spec {Key Value : Type} (req : UpsertRequest Key Value)
    (weight_calculation_fn : Key → Value → Bool → Weight) : Option Weight :=
  match req.weight with
  | some w => some w
  | none =>
      req.value.map (fun v =>
        weight_calculation_fn req.key v req.time_to_live.isSome)

/-- Modelled from the spec: `Calculation::ttl_ticker_entry_size()`, the
implementation-defined ticker-entry contribution to a weight (spec §9: "the
definition of ticker-entry size is implementation-defined").  The claims do
not depend on the constant's value. -/
def ttlTickerEntrySize : Weight := 24

namespace CacheD

/-- Embeds `CacheD::key_description` from `cached.rs`: hash the key and pair
it with the next id from the `IncreasingIdGenerator` and the weight. -/
def key_description {Key Value : Type} (cfg : Config Key Value)
    (s : CacheState Key Value) (key : Key) (weight : Weight) :
    KeyDescription Key × CacheState Key Value :=
  (⟨key, s.next_key_id, cfg.key_hash_fn key, weight⟩,
   { s with next_key_id := s.next_key_id + 1 })

/-- Embeds `CacheD::put_with_weight` from `cached.rs`: shutdown
short-circuit, the `weight > 0` assertion, then a `Put` command. -/
def put_with_weight {Key Value : Type} (cfg : Config Key Value)
    (s : CacheState Key Value) (key : Key) (value : Value) (weight : Weight) :
    CommandOutcome Key Value × CacheState Key Value :=
  if s.is_shutting_down then (CommandOutcome.shutdownError, s)
  else if weight ≤ 0 then (CommandOutcome.panicked, s)
  else
    let r := key_description cfg s key weight
    (CommandOutcome.sent (CommandType.Put r.1 value), r.2)

/-- Embeds `CacheD::put` from `cached.rs`: the weight is computed by
`weight_calculation_fn(key, value, false)` and asserted positive before the
shutdown check of `put_with_weight`. -/
def put {Key Value : Type} (cfg : Config Key Value) (s : CacheState Key Value)
    (key : Key) (value : Value) :
    CommandOutcome Key Value × CacheState Key Value :=
  let weight := cfg.weight_calculation_fn key value false
  if weight ≤ 0 then (CommandOutcome.panicked, s)
  else put_with_weight cfg s key value weight

/-- Embeds `CacheD::put_with_ttl` from `cached.rs`: shutdown short-circuit,
weight from `weight_calculation_fn(key, value, true)` asserted positive, then
a `PutWithTTL` command. -/
def put_with_ttl {Key Value : Type} (cfg : Config Key Value)
    (s : CacheState Key Value) (key : Key) (value : Value) (ttl : Nat) :
    CommandOutcome Key Value × CacheState Key Value :=
  if s.is_shutting_down then (CommandOutcome.shutdownError, s)
  else
    let weight := cfg.weight_calculation_fn key value true
    if weight ≤ 0 then (CommandOutcome.panicked, s)
    else
      let r := key_description cfg s key weight
      (CommandOutcome.sent (CommandType.PutWithTTL r.1 value ttl), r.2)

/-- Embeds `CacheD::put_with_weight_and_ttl` from `cached.rs`. -/
def put_with_weight_and_ttl {Key Value : Type} (cfg : Config Key Value)
    (s : CacheState Key Value) (key : Key) (value : Value) (weight : Weight)
    (ttl : Nat) : CommandOutcome Key Value × CacheState Key Value :=
  if s.is_shutting_down then (CommandOutcome.shutdownError, s)
  else if weight ≤ 0 then (CommandOutcome.panicked, s)
  else
    let r := key_description cfg s key weight
    (CommandOutcome.sent (CommandType.PutWithTTL r.1 value ttl), r.2)

/-- Embeds `CacheD::delete` from `cached.rs`: shutdown short-circuit,
`store.mark_deleted`, then a `Delete` command. -/
def delete {Key Value : Type} [DecidableEq Key] (s : CacheState Key Value)
    (key : Key) : CommandOutcome Key Value × CacheState Key Value :=
  if s.is_shutting_down then (CommandOutcome.shutdownError, s)
  else
    (CommandOutcome.sent (CommandType.Delete key),
     { s with store := s.store.mark_deleted key })

/-- Embeds `CacheD::get` from `cached.rs`: `None` while shutting down,
otherwise the Store lookup (which honors TTL).  The `mark_key_accessed` push
into the access pool only feeds the frequency sketch and is outside the
model. -/
def get {Key Value : Type} [DecidableEq Key] (s : CacheState Key Value)
    (key : Key) : Option Value :=
  if s.is_shutting_down then none else s.store.get key s.now

/-- Embeds `CacheD::get_ref` from `cached.rs`. -/
def get_ref {Key Value : Type} [DecidableEq Key] (s : CacheState Key Value)
    (key : Key) : Option (StoredValue Value) :=
  if s.is_shutting_down then none else s.store.get_ref key s.now

/-- Embeds `CacheD::total_weight_used` from `cached.rs`: the Admission
Policy's used weight. -/
def total_weight_used {Key Value : Type} (s : CacheState Key Value) : Weight :=
  s.policy.weight_used

/-- Embeds `CacheD::shutdown` from `cached.rs`: the compare-exchange on
`is_shutting_down` makes repeated calls no-ops; the first call stops the
executor and the ticker (thread effects outside the model) and clears the
Store, the Admission Policy and the TTL Ticker. -/
def shutdown {Key Value : Type} (s : CacheState Key Value) :
    CacheState Key Value :=
  if s.is_shutting_down then s
  else
    { s with
      is_shutting_down := true,
      store := Store.clear,
      policy := s.policy.clear,
      ttl := TTLTicker.clear }

/-- Embeds the existing-key branch of `CacheD::upsert` (`cached.rs` lines
127–151): reflect the expiry transition in the TTL Ticker (`Added` → `put`,
`Deleted` → `delete`, `Updated` → `update`), let the effective weight pick
up the ticker-entry delta for `Added`/`Deleted` when no weight was computed
from the request, then dispatch `UpdateWeight` when an effective weight is
present (asserted positive) and otherwise return the already-completed
accepted acknowledgement. -/
def upsert_existing {Key Value : Type} (s₁ : CacheState Key Value)
    (response : UpdateResponse Value) (updated_weight : Option Weight) :
    CommandOutcome Key Value × CacheState Key Value :=
  let key_id := response.key_id_or_panic
  let existing_weight := (s₁.policy.weight_of key_id).getD 0
  let step :
      CacheState Key Value × Option Weight :=
    match response.type_of_expiry_update with
    | TypeOfExpiryUpdate.Added kid expiry =>
        ({ s₁ with ttl := s₁.ttl.put kid expiry },
         match updated_weight with
         | some w => some w
         | none => some (existing_weight + ttlTickerEntrySize))
    | TypeOfExpiryUpdate.Deleted kid expiry =>
        ({ s₁ with ttl := s₁.ttl.delete kid expiry },
         match updated_weight with
         | some w => some w
         | none => some (existing_weight - ttlTickerEntrySize))
    | TypeOfExpiryUpdate.Updated kid old_expiry new_expiry =>
        ({ s₁ with ttl := s₁.ttl.update kid old_expiry new_expiry },
         updated_weight)
    | TypeOfExpiryUpdate.Unchanged => (s₁, updated_weight)
  match step.2 with
  | some weight =>
      if weight ≤ 0 then (CommandOutcome.panicked, step.1)
      else
        (CommandOutcome.sent (CommandType.UpdateWeight key_id weight), step.1)
  | none => (CommandOutcome.acceptedImmediately, step.1)

/-- Embeds `CacheD::upsert` from `cached.rs`.  The two-argument
`weight_calculation_fn` of `upsert.rs` is taken as the parameter `wf` (see
the C7 analysis of the argument mismatch with `cached.rs`).  Flow: shutdown
short-circuit; `Store.update`; on no update, the value must be present
(panic otherwise) and a `Put`/`PutWithTTL` command is dispatched with the
effective weight; on an update, `upsert_existing` reconciles the side
effects. -/
def upsert {Key Value : Type} [DecidableEq Key] (cfg : Config Key Value)
    (wf : Key → Value → Weight) (s : CacheState Key Value)
    (req : UpsertRequest Key Value) :
    CommandOutcome Key Value × CacheState Key Value :=
  if s.is_shutting_down then (CommandOutcome.shutdownError, s)
  else
    let updated_weight := req.updated_weight wf
    let ur := s.store.update req.key req.value req.time_to_live
      req.remove_time_to_live s.now
    let s₁ := { s with store := ur.2 }
    if ur.1.did_update_happen = false then
      match ur.1.value with
      | none => (CommandOutcome.panicked, s₁)
      | some value =>
        match updated_weight with
        | none => (CommandOutcome.panicked, s₁)
        | some weight =>
          match req.time_to_live with
          | some ttl => put_with_weight_and_ttl cfg s₁ req.key value weight ttl
          | none => put_with_weight cfg s₁ req.key value weight
    else
      upsert_existing s₁ ur.1 updated_weight

end CacheD

/-- Embeds `MultiGetIterator::next` from `cached.rs`: `None` when the key
list is empty or the cache is shutting down; otherwise the `get` of the first
key, which is then removed from the list. -/
def MultiGetIterator.next {Key Value : Type} [DecidableEq Key]
    (s : CacheState Key Value) (keys : List Key) :
    Option (Option Value) × List Key :=
  match keys with
  | [] => (none, [])
  | key :: rest =>
      if s.is_shutting_down then (none, keys)
      else (some (CacheD.get s key), rest)

/-- Runs `MultiGetIterator.next` to exhaustion, collecting the yielded
items.  The recursion consumes the key list, mirroring `keys.remove(0)`. -/
def MultiGetIterator.collect {Key Value : Type} [DecidableEq Key]
    (s : CacheState Key Value) : List Key → List (Option Value)
  | [] => []
  | key :: rest =>
      match MultiGetIterator.next s (key :: rest) with
      | (none, _) => []
      | (some v, _) => v :: MultiGetIterator.collect s rest

/-- A facade write followed by its worker processing, for drained-state
reasoning: the command a facade call hands to the channel is applied by
`executeCommand`; errors, panics and immediate acknowledgements leave the
worker untouched. -/
def drainOutcome {Key Value : Type} [DecidableEq Key]
    (r : CommandOutcome Key Value × CacheState Key Value) :
    CacheState Key Value :=
  match r.1 with
  | CommandOutcome.sent cmd =>
      match executeCommand cmd r.2 with
      | some r' => r'.2
      | none => r.2
  | _ => r.2

/-- The public write operations quantified over by the weight-bound claim:
the put family and delete, each taken from issuance to full application. -/
inductive CacheOp (Key Value : Type) where
  | put (key : Key) (value : Value)
  | putWithWeight (key : Key) (value : Value) (weight : Weight)
  | putWithTtl (key : Key) (value : Value) (ttl : Nat)
  | putWithWeightAndTtl (key : Key) (value : Value) (weight : Weight) (ttl : Nat)
  | del (key : Key)
deriving DecidableEq, Repr

/-- Applies one drained public write. -/
def applyOp {Key Value : Type} [DecidableEq Key] (cfg : Config Key Value)
    (op : CacheOp Key Value) (s : CacheState Key Value) :
    CacheState Key Value :=
  match op with
  | CacheOp.put key value => drainOutcome (CacheD.put cfg s key value)
  | CacheOp.putWithWeight key value weight =>
      drainOutcome (CacheD.put_with_weight cfg s key value weight)
  | CacheOp.putWithTtl key value ttl =>
      drainOutcome (CacheD.put_with_ttl cfg s key value ttl)
  | CacheOp.putWithWeightAndTtl key value weight ttl =>
      drainOutcome (CacheD.put_with_weight_and_ttl cfg s key value weight ttl)
  | CacheOp.del key => drainOutcome (CacheD.delete s key)

/-- Applies a sequence of drained public writes in order. -/
def applyOps {Key Value : Type} [DecidableEq Key] (cfg : Config Key Value)
    (ops : List (CacheOp Key Value)) (s : CacheState Key Value) :
    CacheState Key Value :=
  ops.foldl (fun s op => applyOp cfg op s) s

/-- The total weight booked in the Key-Weight Table. -/
def tableWeight (table : List (KeyId × (KeyHash × Weight))) : Weight :=
  (table.map (fun e => e.2.2)).sum

/-- The invariant behind the weight bound: `weight_used` equals the table
sum and stays within the budget, table weights are positive (the facade's
`weight > 0` assertions), table ids are below the id generator's next value
and are pairwise distinct. -/
structure PolicyInv (p : AdmissionPolicy) (next : KeyId) : Prop where
  wsum : p.weight_used = tableWeight p.table
  bound : p.weight_used ≤ p.total_cache_weight
  pos : ∀ e ∈ p.table, 0 < e.2.2
  fresh : ∀ e ∈ p.table, e.1 < next
  nodup : (p.table.map (fun e => e.1)).Nodup

/-- Modelled from the spec (§4.6 worker loop, §5 cancellation): the
acknowledgement-resolution behavior of `CommandExecutor::spin` in
`command_executor.rs`.  The worker resolves each received command's
acknowledgement with that command's computed status and then checks
`keep_running`; once it observes `false` it drops the receiver and exits, so
commands still queued are never received and their acknowledgements are never
resolved (`none`).  `iterationsBeforeStop` counts how many loop iterations
still observe `keep_running == true`. -/
def spinResolve : List CommandStatus → Nat → List (Option CommandStatus)
  | [], _ => []
  | status :: rest, 0 => some status :: rest.map (fun _ => none)
  | status :: rest, n + 1 => some status :: spinResolve rest n

theorem assocFind_mem {α β : Type} [DecidableEq α]
    {xs : List (α × β)} {a : α} {b : β} (h : assocFind xs a = some b) :
    (a, b) ∈ xs := by
  induction xs with
  | nil => simp [assocFind] at h
  | cons hd tl ih =>
    obtain ⟨k, v⟩ := hd
    by_cases hk : k = a
    · subst hk
      have hvb : v = b := by simpa [assocFind] using h
      subst hvb
      exact List.mem_cons_self _ _
    · have : assocFind tl a = some b := by simpa [assocFind, hk] using h
      exact List.mem_cons_of_mem _ (ih this)

theorem assocRemove_eq_self {α β : Type} [DecidableEq α]
    {xs : List (α × β)} {a : α} (h : ∀ p ∈ xs, p.1 ≠ a) :
    assocRemove xs a = xs := by
  unfold assocRemove
  rw [List.filter_eq_self]
  intro p hp
  simpa using h p hp

theorem assocFind_of_mem_nodup {α β : Type} [DecidableEq α]
    {xs : List (α × β)} {p : α × β} (hmem : p ∈ xs)
    (hnd : (xs.map (fun e => e.1)).Nodup) :
    assocFind xs p.1 = some p.2 := by
  induction xs with
  | nil => simp at hmem
  | cons hd tl ih =>
    obtain ⟨k, v⟩ := hd
    rcases List.mem_cons.mp hmem with hp | hp
    · subst hp
      simp [assocFind]
    · rw [List.map_cons, List.nodup_cons] at hnd
      have hk : k ≠ p.1 := by
        intro hkp
        have : p.1 ∈ tl.map (fun e => e.1) := List.mem_map_of_mem _ hp
        exact hnd.1 (hkp ▸ this)
      simp [assocFind, hk, ih hp hnd.2]

theorem nodup_ids_assocRemove {α β : Type} [DecidableEq α]
    {xs : List (α × β)} (a : α)
    (hnd : (xs.map (fun e => e.1)).Nodup) :
    ((assocRemove xs a).map (fun e => e.1)).Nodup :=
  ((List.filter_sublist xs).map _).nodup hnd

theorem mem_ids_of_mem {α β : Type} {xs : List (α × β)} {p : α × β}
    (hp : p ∈ xs) : p.1 ∈ xs.map (fun e => e.1) :=
  List.mem_map_of_mem _ hp

theorem tableWeight_cons (e : KeyId × (KeyHash × Weight))
    (t : List (KeyId × (KeyHash × Weight))) :
    tableWeight (e :: t) = e.2.2 + tableWeight t := by
  simp [tableWeight]

theorem tableWeight_assocRemove
    {t : List (KeyId × (KeyHash × Weight))} {kid : KeyId}
    {e : KeyHash × Weight}
    (hnd : (t.map (fun e => e.1)).Nodup)
    (hfind : assocFind t kid = some e) :
    tableWeight (assocRemove t kid) = tableWeight t - e.2 := by
  induction t with
  | nil => simp [assocFind] at hfind
  | cons hd tl ih =>
    obtain ⟨k, v⟩ := hd
    rw [List.map_cons, List.nodup_cons] at hnd
    by_cases hk : k = kid
    · subst hk
      have hve : v = e := by simpa [assocFind] using hfind
      have hnotin : ∀ p ∈ tl, p.1 ≠ k := by
        intro p hp hpk
        have hmem : p.1 ∈ tl.map (fun e => e.1) := mem_ids_of_mem hp
        rw [hpk] at hmem
        exact hnd.1 hmem
      have hrm : assocRemove ((k, v) :: tl) k = assocRemove tl k := by
        simp [assocRemove]
      rw [hrm, assocRemove_eq_self hnotin, tableWeight_cons, hve]
      ring
    · have hfind' : assocFind tl kid = some e := by
        simpa [assocFind, hk] using hfind
      have hrm : assocRemove ((k, v) :: tl) kid = (k, v) :: assocRemove tl kid := by
        simp [assocRemove, hk]
      rw [hrm, tableWeight_cons, tableWeight_cons, ih hnd.2 hfind']
      ring

theorem foldl_choice_mem {α : Type} (g : α → α → Bool) :
    ∀ (l : List α) (a : α),
      l.foldl (fun best c => if g c best then c else best) a ∈ a :: l := by
  intro l
  induction l with
  | nil => intro a; simp
  | cons c l ih =>
    intro a
    have h := ih (if g c a then c else a)
    rcases List.mem_cons.mp h with h' | h'
    · rw [List.foldl_cons, h']
      by_cases hg : g c a = true
      · simp [hg]
      · simp only [Bool.not_eq_true] at hg
        simp [hg]
    · exact List.mem_cons_of_mem _ (List.mem_cons_of_mem _ h')

theorem pickVictim_mem {p : AdmissionPolicy} {v : KeyId × (KeyHash × Weight)}
    (h : pickVictim p = some v) : v ∈ p.table := by
  unfold pickVictim at h
  cases htab : p.table with
  | nil => rw [htab] at h; simp at h
  | cons e rest =>
    rw [htab] at h
    simp only [Option.some.injEq] at h
    have := foldl_choice_mem (victimPreferred p) rest e
    rw [h] at this
    exact this

theorem pickVictim_none {p : AdmissionPolicy}
    (h : pickVictim p = none) : p.table = [] := by
  unfold pickVictim at h
  cases htab : p.table with
  | nil => rfl
  | cons e rest => rw [htab] at h; simp at h

theorem policy_delete_total (p : AdmissionPolicy) (kid : KeyId) :
    (p.delete kid).total_cache_weight = p.total_cache_weight := by
  unfold AdmissionPolicy.delete
  cases assocFind p.table kid <;> rfl

theorem evictKey_fields {Key Value : Type} (kid : KeyId)
    (s : CacheState Key Value) :
    (evictKey kid s).is_shutting_down = s.is_shutting_down ∧
    (evictKey kid s).now = s.now ∧
    (evictKey kid s).next_key_id = s.next_key_id ∧
    (evictKey kid s).policy.total_cache_weight = s.policy.total_cache_weight := by
  refine ⟨rfl, rfl, rfl, ?_⟩
  simp [evictKey, policy_delete_total]

theorem evictionLoop_fields {Key Value : Type} (cf : Nat)
    (kd : KeyDescription Key) :
    ∀ (fuel : Nat) (s : CacheState Key Value),
      (evictionLoop cf kd fuel s).2.is_shutting_down = s.is_shutting_down ∧
      (evictionLoop cf kd fuel s).2.now = s.now ∧
      (evictionLoop cf kd fuel s).2.next_key_id = s.next_key_id ∧
      (evictionLoop cf kd fuel s).2.policy.total_cache_weight
        = s.policy.total_cache_weight := by
  intro fuel
  induction fuel with
  | zero => intro s; exact ⟨rfl, rfl, rfl, rfl⟩
  | succ fuel ih =>
    intro s
    unfold evictionLoop
    by_cases h1 : kd.weight ≤ freeSpace s
    · simp [h1]
    · cases hpv : pickVictim s.policy with
      | none => simp [h1, hpv]
      | some v =>
        by_cases h2 : cf ≤ s.policy.estimate v.2.1
        · simp [h1, hpv, h2]
        · have hrec := ih (evictKey v.1 s)
          have hf := evictKey_fields v.1 s
          simp only [h1, if_false, hpv, h2, ite_false]
          refine ⟨?_, ?_, ?_, ?_⟩
          · simpa [hpv, h2] using hrec.1.trans hf.1
          · simpa [hpv, h2] using hrec.2.1.trans hf.2.1
          · simpa [hpv, h2] using hrec.2.2.1.trans hf.2.2.1
          · simpa [hpv, h2] using hrec.2.2.2.trans hf.2.2.2

theorem maybe_add_fields {Key Value : Type} (kd : KeyDescription Key)
    (s : CacheState Key Value) :
    (maybe_add kd s).2.is_shutting_down = s.is_shutting_down ∧
    (maybe_add kd s).2.now = s.now ∧
    (maybe_add kd s).2.next_key_id = s.next_key_id ∧
    (maybe_add kd s).2.policy.total_cache_weight
      = s.policy.total_cache_weight := by
  unfold maybe_add
  by_cases h1 : s.policy.total_cache_weight < kd.weight
  · simp [h1]
  · cases hf : assocFind s.policy.table kd.id with
    | some e => simp [h1, hf]
    | none =>
      by_cases h2 : kd.weight ≤ freeSpace s
      · simp [h1, hf, h2, admitCandidate]
      · have hloop := evictionLoop_fields (s.policy.estimate kd.hash) kd
          s.policy.table.length s
        by_cases hr : (evictionLoop (s.policy.estimate kd.hash) kd
            s.policy.table.length s).1
        · simp only [h1, if_false, hf, h2, ite_false, hr, if_true]
          exact ⟨hloop.1, hloop.2.1, hloop.2.2.1, hloop.2.2.2⟩
        · simp only [h1, if_false, hf, h2, ite_false, hr, if_false]
          exact hloop

theorem PolicyInv.mono {p : AdmissionPolicy} {n m : KeyId}
    (h : PolicyInv p n) (hnm : n ≤ m) : PolicyInv p m :=
  ⟨h.wsum, h.bound, h.pos, fun e he => lt_of_lt_of_le (h.fresh e he) hnm, h.nodup⟩

theorem policy_delete_subset {p : AdmissionPolicy} {kid : KeyId}
    {e : KeyId × (KeyHash × Weight)} (he : e ∈ (p.delete kid).table) :
    e ∈ p.table := by
  unfold AdmissionPolicy.delete at he
  cases hf : assocFind p.table kid with
  | some w => rw [hf] at he; exact assocRemove_subset _ _ he
  | none => rw [hf] at he; exact he

theorem policy_delete_inv {p : AdmissionPolicy} {next : KeyId}
    (h : PolicyInv p next) (kid : KeyId) : PolicyInv (p.delete kid) next := by
  unfold AdmissionPolicy.delete
  cases hf : assocFind p.table kid with
  | none => exact h
  | some e =>
    have hmem : (kid, e) ∈ p.table := assocFind_mem hf
    have hpos : (0 : Weight) < e.2 := h.pos _ hmem
    refine ⟨?_, ?_, ?_, ?_, ?_⟩
    · show p.weight_used - e.2 = tableWeight (assocRemove p.table kid)
      rw [tableWeight_assocRemove h.nodup hf, h.wsum]
    · show p.weight_used - e.2 ≤ p.total_cache_weight
      have : p.weight_used - e.2 ≤ p.weight_used := by linarith
      exact le_trans this h.bound
    · intro e' he'
      exact h.pos e' (assocRemove_subset _ _ he')
    · intro e' he'
      exact h.fresh e' (assocRemove_subset _ _ he')
    · exact nodup_ids_assocRemove kid h.nodup

theorem evictKey_inv {Key Value : Type} {s : CacheState Key Value}
    (h : PolicyInv s.policy s.next_key_id) (kid : KeyId) :
    PolicyInv (evictKey kid s).policy (evictKey kid s).next_key_id :=
  policy_delete_inv h kid

theorem evictionLoop_sound {Key Value : Type} (cf : Nat)
    (kd : KeyDescription Key) :
    ∀ (fuel : Nat) (s : CacheState Key Value),
      s.policy.table.length ≤ fuel →
      PolicyInv s.policy s.next_key_id →
      PolicyInv (evictionLoop cf kd fuel s).2.policy
          (evictionLoop cf kd fuel s).2.next_key_id ∧
      (∀ e ∈ (evictionLoop cf kd fuel s).2.policy.table, e ∈ s.policy.table) ∧
      ((evictionLoop cf kd fuel s).1 = true →
        kd.weight ≤ freeSpace (evictionLoop cf kd fuel s).2 ∨
        (evictionLoop cf kd fuel s).2.policy.table = []) := by
  intro fuel
  induction fuel with
  | zero =>
    intro s hlen hinv
    have htab : s.policy.table = [] :=
      List.eq_nil_of_length_eq_zero (Nat.le_zero.mp hlen)
    exact ⟨hinv, fun e he => he, fun _ => Or.inr htab⟩
  | succ fuel ih =>
    intro s hlen hinv
    unfold evictionLoop
    by_cases h1 : kd.weight ≤ freeSpace s
    · rw [if_pos h1]
      exact ⟨hinv, fun e he => he, fun _ => Or.inl h1⟩
    · rw [if_neg h1]
      split
      · rename_i hpv
        have htab : s.policy.table = [] := pickVictim_none hpv
        exact ⟨hinv, fun e he => he, fun _ => Or.inr htab⟩
      · rename_i v hpv
        by_cases h2 : cf ≤ s.policy.estimate v.2.1
        · rw [if_pos h2]
          exact ⟨hinv, fun e he => he, fun hfalse => by simp at hfalse⟩
        · rw [if_neg h2]
          have hvm : v ∈ s.policy.table := pickVictim_mem hpv
          have hvf : assocFind s.policy.table v.1 = some v.2 :=
            assocFind_of_mem_nodup hvm hinv.nodup
          have htab' : (evictKey v.1 s).policy.table
              = assocRemove s.policy.table v.1 := by
            simp [evictKey, AdmissionPolicy.delete, hvf]
          have hlen' : (evictKey v.1 s).policy.table.length ≤ fuel := by
            rw [htab']
            have := assocRemove_length_lt s.policy.table v.1 hvf
            omega
          have hinv' : PolicyInv (evictKey v.1 s).policy
              (evictKey v.1 s).next_key_id := evictKey_inv hinv v.1
          have hrec := ih (evictKey v.1 s) hlen' hinv'
          refine ⟨hrec.1, ?_, hrec.2.2⟩
          intro e he
          have := hrec.2.1 e he
          rw [htab'] at this
          exact assocRemove_subset _ _ this

theorem admitCandidate_inv {Key Value : Type} {kd : KeyDescription Key}
    {s : CacheState Key Value}
    (hw : 0 < kd.weight)
    (hfr : ∀ e ∈ s.policy.table, e.1 < kd.id)
    (hlt : kd.id < s.next_key_id)
    (hinv : PolicyInv s.policy s.next_key_id)
    (hroom : kd.weight ≤ freeSpace s ∨ s.policy.table = [])
    (htot : ¬ s.policy.total_cache_weight < kd.weight) :
    PolicyInv (admitCandidate kd s).policy (admitCandidate kd s).next_key_id := by
  refine ⟨?_, ?_, ?_, ?_, ?_⟩
  · show s.policy.weight_used + kd.weight
      = tableWeight ((kd.id, (kd.hash, kd.weight)) :: s.policy.table)
    rw [tableWeight_cons, hinv.wsum]
    ring
  · show s.policy.weight_used + kd.weight ≤ s.policy.total_cache_weight
    rcases hroom with hr | hr
    · have : freeSpace s = s.policy.total_cache_weight - s.policy.weight_used := rfl
      rw [this] at hr
      linarith
    · have hzero : s.policy.weight_used = 0 := by
        rw [hinv.wsum, hr]
        rfl
      rw [hzero]
      linarith [not_lt.mp htot]
  · intro e he
    rcases List.mem_cons.mp he with he' | he'
    · subst he'
      exact hw
    · exact hinv.pos e he'
  · intro e he
    rcases List.mem_cons.mp he with he' | he'
    · subst he'
      exact hlt
    · exact hinv.fresh e he'
  · show (List.map (fun e => e.1)
      ((kd.id, (kd.hash, kd.weight)) :: s.policy.table)).Nodup
    rw [List.map_cons, List.nodup_cons]
    refine ⟨?_, hinv.nodup⟩
    intro hmem
    rcases List.mem_map.mp hmem with ⟨e, he, heq⟩
    have hlt' := hfr e he
    rw [heq] at hlt'
    exact absurd hlt' (lt_irrefl kd.id)

theorem maybe_add_inv {Key Value : Type} {kd : KeyDescription Key}
    {s : CacheState Key Value}
    (hw : 0 < kd.weight)
    (hfr : ∀ e ∈ s.policy.table, e.1 < kd.id)
    (hlt : kd.id < s.next_key_id)
    (hinv : PolicyInv s.policy s.next_key_id) :
    PolicyInv (maybe_add kd s).2.policy (maybe_add kd s).2.next_key_id := by
  unfold maybe_add
  by_cases h1 : s.policy.total_cache_weight < kd.weight
  · rw [if_pos h1]
    exact hinv
  · rw [if_neg h1]
    split
    · rename_i e hf
      exact absurd (hfr _ (assocFind_mem hf)) (lt_irrefl kd.id)
    · rename_i hf
      by_cases h2 : kd.weight ≤ freeSpace s
      · rw [if_pos h2]
        exact admitCandidate_inv hw hfr hlt hinv (Or.inl h2) h1
      · rw [if_neg h2]
        have hsound := evictionLoop_sound (s.policy.estimate kd.hash) kd
          s.policy.table.length s (le_refl _) hinv
        have hfields := evictionLoop_fields (s.policy.estimate kd.hash) kd
          s.policy.table.length s
        by_cases hok : (evictionLoop (s.policy.estimate kd.hash) kd
            s.policy.table.length s).1 = true
        · rw [if_pos hok]
          refine admitCandidate_inv hw ?_ ?_ hsound.1 (hsound.2.2 hok) ?_
          · intro e he
            exact hfr e (hsound.2.1 e he)
          · rw [hfields.2.2.1]
            exact hlt
          · rw [hfields.2.2.2]
            exact h1
        · rw [if_neg hok]
          exact hsound.1

theorem execPut_fields {Key Value : Type} [DecidableEq Key]
    (kd : KeyDescription Key) (v : Value) (s : CacheState Key Value) :
    (CommandExecutor.put kd v s).2.is_shutting_down = s.is_shutting_down ∧
    (CommandExecutor.put kd v s).2.now = s.now ∧
    (CommandExecutor.put kd v s).2.next_key_id = s.next_key_id ∧
    (CommandExecutor.put kd v s).2.policy = (maybe_add kd s).2.policy := by
  simp only [CommandExecutor.put]
  have hm := maybe_add_fields kd s
  by_cases hst : (maybe_add kd s).1 = CommandStatus.Accepted
  · rw [if_pos hst]
    exact ⟨hm.1, hm.2.1, hm.2.2.1, rfl⟩
  · rw [if_neg hst]
    exact ⟨hm.1, hm.2.1, hm.2.2.1, rfl⟩

theorem execPut_inv {Key Value : Type} [DecidableEq Key]
    {kd : KeyDescription Key} {v : Value} {s : CacheState Key Value}
    (hw : 0 < kd.weight)
    (hfr : ∀ e ∈ s.policy.table, e.1 < kd.id)
    (hlt : kd.id < s.next_key_id)
    (hinv : PolicyInv s.policy s.next_key_id) :
    PolicyInv (CommandExecutor.put kd v s).2.policy
      (CommandExecutor.put kd v s).2.next_key_id := by
  have hf := execPut_fields kd v s
  rw [hf.2.2.1, hf.2.2.2]
  rw [← (maybe_add_fields kd s).2.2.1]
  exact maybe_add_inv hw hfr hlt hinv

theorem execPutWithTtl_fields {Key Value : Type} [DecidableEq Key]
    (kd : KeyDescription Key) (v : Value) (ttl : Nat)
    (s : CacheState Key Value) :
    (CommandExecutor.put_with_ttl kd v ttl s).2.is_shutting_down
      = s.is_shutting_down ∧
    (CommandExecutor.put_with_ttl kd v ttl s).2.now = s.now ∧
    (CommandExecutor.put_with_ttl kd v ttl s).2.next_key_id = s.next_key_id ∧
    (CommandExecutor.put_with_ttl kd v ttl s).2.policy
      = (maybe_add kd s).2.policy := by
  simp only [CommandExecutor.put_with_ttl]
  have hm := maybe_add_fields kd s
  by_cases hst : (maybe_add kd s).1 = CommandStatus.Accepted
  · rw [if_pos hst]
    exact ⟨hm.1, hm.2.1, hm.2.2.1, rfl⟩
  · rw [if_neg hst]
    exact ⟨hm.1, hm.2.1, hm.2.2.1, rfl⟩

theorem execPutWithTtl_inv {Key Value : Type} [DecidableEq Key]
    {kd : KeyDescription Key} {v : Value} {ttl : Nat}
    {s : CacheState Key Value}
    (hw : 0 < kd.weight)
    (hfr : ∀ e ∈ s.policy.table, e.1 < kd.id)
    (hlt : kd.id < s.next_key_id)
    (hinv : PolicyInv s.policy s.next_key_id) :
    PolicyInv (CommandExecutor.put_with_ttl kd v ttl s).2.policy
      (CommandExecutor.put_with_ttl kd v ttl s).2.next_key_id := by
  have hf := execPutWithTtl_fields kd v ttl s
  rw [hf.2.2.1, hf.2.2.2]
  rw [← (maybe_add_fields kd s).2.2.1]
  exact maybe_add_inv hw hfr hlt hinv

theorem execDelete_fields {Key Value : Type} [DecidableEq Key]
    (key : Key) (s : CacheState Key Value) :
    (CommandExecutor.delete key s).2.is_shutting_down = s.is_shutting_down ∧
    (CommandExecutor.delete key s).2.now = s.now ∧
    (CommandExecutor.delete key s).2.next_key_id = s.next_key_id ∧
    (CommandExecutor.delete key s).2.policy.total_cache_weight
      = s.policy.total_cache_weight := by
  simp only [CommandExecutor.delete]
  split
  · rename_i r hr
    split
    · rename_i e he
      exact ⟨rfl, rfl, rfl, policy_delete_total _ _⟩
    · exact ⟨rfl, rfl, rfl, policy_delete_total _ _⟩
  · exact ⟨rfl, rfl, rfl, rfl⟩

theorem execDelete_inv {Key Value : Type} [DecidableEq Key]
    {key : Key} {s : CacheState Key Value}
    (hinv : PolicyInv s.policy s.next_key_id) :
    PolicyInv (CommandExecutor.delete key s).2.policy
      (CommandExecutor.delete key s).2.next_key_id := by
  simp only [CommandExecutor.delete]
  split
  · rename_i r hr
    split
    · rename_i e he
      exact policy_delete_inv hinv _
    · exact policy_delete_inv hinv _
  · exact hinv

theorem execUpdateTtl_inv {Key Value : Type} [DecidableEq Key]
    {key : Key} {ttl : Nat} {s : CacheState Key Value}
    (hinv : PolicyInv s.policy s.next_key_id) :
    PolicyInv (CommandExecutor.update_ttl key ttl s).2.policy
      (CommandExecutor.update_ttl key ttl s).2.next_key_id := by
  simp only [CommandExecutor.update_ttl]
  split
  · rename_i r hr
    split
    · exact hinv
    · exact hinv
  · exact hinv

theorem execUpdateTtl_total {Key Value : Type} [DecidableEq Key]
    (key : Key) (ttl : Nat) (s : CacheState Key Value) :
    (CommandExecutor.update_ttl key ttl s).2.policy.total_cache_weight
      = s.policy.total_cache_weight := by
  simp only [CommandExecutor.update_ttl]
  split
  · rename_i r hr
    split
    · rfl
    · rfl
  · rfl

theorem drain_put_with_weight_inv {Key Value : Type} [DecidableEq Key]
    (cfg : Config Key Value) (s : CacheState Key Value) (k : Key) (v : Value)
    (w : Weight) (hinv : PolicyInv s.policy s.next_key_id) :
    PolicyInv (drainOutcome (CacheD.put_with_weight cfg s k v w)).policy
      (drainOutcome (CacheD.put_with_weight cfg s k v w)).next_key_id ∧
    (drainOutcome
        (CacheD.put_with_weight cfg s k v w)).policy.total_cache_weight
      = s.policy.total_cache_weight := by
  simp only [CacheD.put_with_weight]
  by_cases hsd : s.is_shutting_down
  · rw [if_pos hsd]
    exact ⟨hinv, rfl⟩
  · rw [if_neg hsd]
    by_cases hw : w ≤ 0
    · rw [if_pos hw]
      exact ⟨hinv, rfl⟩
    · rw [if_neg hw]
      show
        PolicyInv
          (CommandExecutor.put
            (⟨k, s.next_key_id, cfg.key_hash_fn k, w⟩ : KeyDescription Key) v
            { s with next_key_id := s.next_key_id + 1 }).2.policy
          (CommandExecutor.put
            (⟨k, s.next_key_id, cfg.key_hash_fn k, w⟩ : KeyDescription Key) v
            { s with next_key_id := s.next_key_id + 1 }).2.next_key_id ∧
        (CommandExecutor.put
            (⟨k, s.next_key_id, cfg.key_hash_fn k, w⟩ : KeyDescription Key) v
            { s with next_key_id := s.next_key_id + 1 }).2.policy.total_cache_weight
          = s.policy.total_cache_weight
      refine ⟨?_, ?_⟩
      · refine execPut_inv (lt_of_not_le hw) ?_ (Nat.lt_succ_self _)
          (hinv.mono (Nat.le_succ _))
        intro e he
        exact hinv.fresh e he
      · rw [(execPut_fields _ _ _).2.2.2]
        exact (maybe_add_fields _ _).2.2.2

theorem drain_put_with_weight_and_ttl_inv {Key Value : Type} [DecidableEq Key]
    (cfg : Config Key Value) (s : CacheState Key Value) (k : Key) (v : Value)
    (w : Weight) (ttl : Nat) (hinv : PolicyInv s.policy s.next_key_id) :
    PolicyInv
      (drainOutcome (CacheD.put_with_weight_and_ttl cfg s k v w ttl)).policy
      (drainOutcome
        (CacheD.put_with_weight_and_ttl cfg s k v w ttl)).next_key_id ∧
    (drainOutcome
        (CacheD.put_with_weight_and_ttl cfg s k v w ttl)).policy.total_cache_weight
      = s.policy.total_cache_weight := by
  simp only [CacheD.put_with_weight_and_ttl]
  by_cases hsd : s.is_shutting_down
  · rw [if_pos hsd]
    exact ⟨hinv, rfl⟩
  · rw [if_neg hsd]
    by_cases hw : w ≤ 0
    · rw [if_pos hw]
      exact ⟨hinv, rfl⟩
    · rw [if_neg hw]
      show
        PolicyInv
          (CommandExecutor.put_with_ttl
            (⟨k, s.next_key_id, cfg.key_hash_fn k, w⟩ : KeyDescription Key) v ttl
            { s with next_key_id := s.next_key_id + 1 }).2.policy
          (CommandExecutor.put_with_ttl
            (⟨k, s.next_key_id, cfg.key_hash_fn k, w⟩ : KeyDescription Key) v ttl
            { s with next_key_id := s.next_key_id + 1 }).2.next_key_id ∧
        (CommandExecutor.put_with_ttl
            (⟨k, s.next_key_id, cfg.key_hash_fn k, w⟩ : KeyDescription Key) v ttl
            { s with next_key_id := s.next_key_id + 1 }).2.policy.total_cache_weight
          = s.policy.total_cache_weight
      refine ⟨?_, ?_⟩
      · refine execPutWithTtl_inv (lt_of_not_le hw) ?_ (Nat.lt_succ_self _)
          (hinv.mono (Nat.le_succ _))
        intro e he
        exact hinv.fresh e he
      · rw [(execPutWithTtl_fields _ _ _ _).2.2.2]
        exact (maybe_add_fields _ _).2.2.2

theorem drain_put_with_ttl_inv {Key Value : Type} [DecidableEq Key]
    (cfg : Config Key Value) (s : CacheState Key Value) (k : Key) (v : Value)
    (ttl : Nat) (hinv : PolicyInv s.policy s.next_key_id) :
    PolicyInv (drainOutcome (CacheD.put_with_ttl cfg s k v ttl)).policy
      (drainOutcome (CacheD.put_with_ttl cfg s k v ttl)).next_key_id ∧
    (drainOutcome
        (CacheD.put_with_ttl cfg s k v ttl)).policy.total_cache_weight
      = s.policy.total_cache_weight := by
  simp only [CacheD.put_with_ttl]
  by_cases hsd : s.is_shutting_down
  · rw [if_pos hsd]
    exact ⟨hinv, rfl⟩
  · rw [if_neg hsd]
    by_cases hw : cfg.weight_calculation_fn k v true ≤ 0
    · rw [if_pos hw]
      exact ⟨hinv, rfl⟩
    · rw [if_neg hw]
      show
        PolicyInv
          (CommandExecutor.put_with_ttl
            (⟨k, s.next_key_id, cfg.key_hash_fn k,
              cfg.weight_calculation_fn k v true⟩ : KeyDescription Key) v ttl
            { s with next_key_id := s.next_key_id + 1 }).2.policy
          (CommandExecutor.put_with_ttl
            (⟨k, s.next_key_id, cfg.key_hash_fn k,
              cfg.weight_calculation_fn k v true⟩ : KeyDescription Key) v ttl
            { s with next_key_id := s.next_key_id + 1 }).2.next_key_id ∧
        (CommandExecutor.put_with_ttl
            (⟨k, s.next_key_id, cfg.key_hash_fn k,
              cfg.weight_calculation_fn k v true⟩ : KeyDescription Key) v ttl
            { s with next_key_id := s.next_key_id + 1 }).2.policy.total_cache_weight
          = s.policy.total_cache_weight
      refine ⟨?_, ?_⟩
      · refine execPutWithTtl_inv (lt_of_not_le hw) ?_ (Nat.lt_succ_self _)
          (hinv.mono (Nat.le_succ _))
        intro e he
        exact hinv.fresh e he
      · rw [(execPutWithTtl_fields _ _ _ _).2.2.2]
        exact (maybe_add_fields _ _).2.2.2

theorem drain_delete_inv {Key Value : Type} [DecidableEq Key]
    (s : CacheState Key Value) (k : Key)
    (hinv : PolicyInv s.policy s.next_key_id) :
    PolicyInv (drainOutcome (CacheD.delete s k)).policy
      (drainOutcome (CacheD.delete s k)).next_key_id ∧
    (drainOutcome (CacheD.delete s k)).policy.total_cache_weight
      = s.policy.total_cache_weight := by
  simp only [CacheD.delete]
  by_cases hsd : s.is_shutting_down
  · rw [if_pos hsd]
    exact ⟨hinv, rfl⟩
  · rw [if_neg hsd]
    show
      PolicyInv
        (CommandExecutor.delete k
          { s with store := s.store.mark_deleted k }).2.policy
        (CommandExecutor.delete k
          { s with store := s.store.mark_deleted k }).2.next_key_id ∧
      (CommandExecutor.delete k
          { s with store := s.store.mark_deleted k }).2.policy.total_cache_weight
        = s.policy.total_cache_weight
    exact ⟨execDelete_inv hinv, (execDelete_fields _ _).2.2.2⟩

theorem applyOp_inv {Key Value : Type} [DecidableEq Key]
    (cfg : Config Key Value) (op : CacheOp Key Value)
    (s : CacheState Key Value) (hinv : PolicyInv s.policy s.next_key_id) :
    PolicyInv (applyOp cfg op s).policy (applyOp cfg op s).next_key_id ∧
    (applyOp cfg op s).policy.total_cache_weight
      = s.policy.total_cache_weight := by
  cases op with
  | put k v =>
    show
      PolicyInv (drainOutcome (CacheD.put cfg s k v)).policy
        (drainOutcome (CacheD.put cfg s k v)).next_key_id ∧
      (drainOutcome (CacheD.put cfg s k v)).policy.total_cache_weight
        = s.policy.total_cache_weight
    simp only [CacheD.put]
    by_cases hw : cfg.weight_calculation_fn k v false ≤ 0
    · rw [if_pos hw]
      exact ⟨hinv, rfl⟩
    · rw [if_neg hw]
      exact drain_put_with_weight_inv cfg s k v _ hinv
  | putWithWeight k v w => exact drain_put_with_weight_inv cfg s k v w hinv
  | putWithTtl k v ttl => exact drain_put_with_ttl_inv cfg s k v ttl hinv
  | putWithWeightAndTtl k v w ttl =>
    exact drain_put_with_weight_and_ttl_inv cfg s k v w ttl hinv
  | del k => exact drain_delete_inv s k hinv

theorem applyOps_inv {Key Value : Type} [DecidableEq Key]
    (cfg : Config Key Value) (ops : List (CacheOp Key Value)) :
    ∀ (s : CacheState Key Value), PolicyInv s.policy s.next_key_id →
      PolicyInv (applyOps cfg ops s).policy (applyOps cfg ops s).next_key_id ∧
      (applyOps cfg ops s).policy.total_cache_weight
        = s.policy.total_cache_weight := by
  induction ops with
  | nil => intro s hinv; exact ⟨hinv, rfl⟩
  | cons op ops ih =>
    intro s hinv
    have hstep := applyOp_inv cfg op s hinv
    have hrest := ih (applyOp cfg op s) hstep.1
    exact ⟨hrest.1, hrest.2.trans hstep.2⟩

/-- Drains one upsert the way the spec's worker loop is meant to handle it:
commands go through `executeCommand`, except `UpdateWeight`, for which the
snapshot's worker has no arm (see C4) and the spec says to "just call into
the Admission Policy" — that intended handling
(`AdmissionPolicy.update_weight`) is applied here.  Modelled from the spec
(§4.6 worker step 4); the repository's own upsert tests in `cached.rs` pin
the resulting weights. -/
def drainUpsert {Key Value : Type} [DecidableEq Key] (cfg : Config Key Value)
    (wf : Key → Value → Weight) (s : CacheState Key Value)
    (req : UpsertRequest Key Value) : CacheState Key Value :=
  match CacheD.upsert cfg wf s req with
  | (CommandOutcome.sent (CommandType.UpdateWeight kid w), s') =>
      { s' with policy := s'.policy.update_weight kid w }
  | (CommandOutcome.sent cmd, s') =>
      match executeCommand cmd s' with
      | some r => r.2
      | none => s'
  | (_, s') => s'

/-- A concrete configuration over `Nat` keys and values used by witnesses:
identity hashing, a constant weight of 40, a budget of 100. -/
def cfgNat : Config Nat Nat :=
  { key_hash_fn := fun k => k,
    weight_calculation_fn := fun _ _ _ => 40,
    total_cache_weight := 100 }

/-- A concrete configuration whose weight calculation (200) exceeds the
budget (100), so every plain `put` is rejected by admission step 1. -/
def cfgHeavy : Config Nat Nat :=
  { key_hash_fn := fun k => k,
    weight_calculation_fn := fun _ _ _ => 200,
    total_cache_weight := 100 }

/-- Reading right after a store insert of a never-expiring value yields that
value, provided the cache is not shutting down. -/
theorem get_after_store_put {Key Value : Type} [DecidableEq Key]
    (t : CacheState Key Value) (k : Key) (v : Value) (kid : KeyId)
    (hsd : t.is_shutting_down = false) :
    CacheD.get { t with store := t.store.put k v kid } k = some v := by
  unfold CacheD.get
  rw [if_neg (by simp [hsd])]
  unfold Store.get Store.get_ref Store.put
  rw [assocFind_put_self]
  simp [StoredValue.never_expiring, StoredValue.is_alive]

/-- C1, amended: for every key `k` and value `v`, after the acknowledgement
returned by `put(k, v)` completes with status `Accepted` and no later write,
delete, eviction or expiry of `k` intervenes, `get(&k)` returns `Some(v)`.
(`hsend` is the facade handing the command to the executor, `hexec` the
worker applying it and completing the acknowledgement.) -/
theorem put_then_get_observes_value {Key Value : Type} [DecidableEq Key]
    (cfg : Config Key Value) (s s₁ s₂ : CacheState Key Value) (k : Key)
    (v : Value) (cmd : CommandType Key Value)
    (hsend : CacheD.put cfg s k v = (CommandOutcome.sent cmd, s₁))
    (hexec : executeCommand cmd s₁ = some (CommandStatus.Accepted, s₂)) :
    CacheD.get s₂ k = some v := by
  simp only [CacheD.put] at hsend
  by_cases hw : cfg.weight_calculation_fn k v false ≤ 0
  · rw [if_pos hw] at hsend
    simp at hsend
  · rw [if_neg hw] at hsend
    simp only [CacheD.put_with_weight] at hsend
    by_cases hsd : s.is_shutting_down
    · rw [if_pos hsd] at hsend
      simp at hsend
    · rw [if_neg hsd] at hsend
      rw [if_neg hw] at hsend
      have hcmd : CommandType.Put
          (⟨k, s.next_key_id, cfg.key_hash_fn k,
            cfg.weight_calculation_fn k v false⟩ : KeyDescription Key) v
          = cmd := by
        have := congrArg Prod.fst hsend
        simpa [CacheD.key_description] using this
      have hs₁ : ({ s with next_key_id := s.next_key_id + 1 }
          : CacheState Key Value) = s₁ := by
        have := congrArg Prod.snd hsend
        simpa [CacheD.key_description] using this
      subst hcmd
      subst hs₁
      simp only [executeCommand, Option.some.injEq] at hexec
      set kd : KeyDescription Key :=
        ⟨k, s.next_key_id, cfg.key_hash_fn k,
          cfg.weight_calculation_fn k v false⟩ with hkd
      set t : CacheState Key Value := { s with next_key_id := s.next_key_id + 1 }
        with ht
      simp only [CommandExecutor.put] at hexec
      by_cases hst : (maybe_add kd t).1 = CommandStatus.Accepted
      · rw [if_pos hst] at hexec
        have hs₂ : ({ (maybe_add kd t).2 with
            store := (maybe_add kd t).2.store.put kd.key v kd.id }
            : CacheState Key Value) = s₂ := congrArg Prod.snd hexec
      -- the worker state after the accepted put
        rw [← hs₂]
        apply get_after_store_put
        have hflag := (maybe_add_fields kd t).1
        rw [hflag]
        simpa using hsd
      · rw [if_neg hst] at hexec
        exact absurd (congrArg Prod.fst hexec) hst

/-- The drained state after `put 1 2` under `cfgNat`, for the C1 witness. -/
def stateAfterPutNat : CacheState Nat Nat :=
  { store := ⟨[(1, { value := 2, key_id := 0, expire_after := none })]⟩,
    policy :=
      { table := [(0, (1, 40))], weight_used := 40,
        total_cache_weight := 100, freq := [] },
    ttl := ⟨[]⟩, now := 0, next_key_id := 1, is_shutting_down := false }

theorem put_then_get_observes_value_witness :
    CacheD.get stateAfterPutNat 1 = some 2 :=
  put_then_get_observes_value cfgNat (initState cfgNat)
    { initState cfgNat with next_key_id := 1 } stateAfterPutNat 1 2
    (CommandType.Put (⟨1, 0, 1, 40⟩ : KeyDescription Nat) 2)
    (by decide) (by decide)

/-- Counterexample to C1 as stated: under `cfgHeavy` the command of
`put(1, 2)` weighs 200 against a budget of 100, so the worker completes the
acknowledgement with `Rejected` and a subsequent `get(&1)`, with no
intervening write, delete, eviction or expiry, returns `None`, not
`Some(2)`. -/
theorem put_then_get_counterexample :
    (CacheD.put cfgHeavy (initState cfgHeavy) 1 2).1
      = CommandOutcome.sent
          (CommandType.Put (⟨1, 0, 1, 200⟩ : KeyDescription Nat) 2) ∧
    executeCommand (CommandType.Put (⟨1, 0, 1, 200⟩ : KeyDescription Nat) (2 : Nat))
        ((CacheD.put cfgHeavy (initState cfgHeavy) 1 2).2)
      = some (CommandStatus.Rejected,
          (CacheD.put cfgHeavy (initState cfgHeavy) 1 2).2) ∧
    CacheD.get ((CacheD.put cfgHeavy (initState cfgHeavy) 1 2).2) 1 = none ∧
    CacheD.get ((CacheD.put cfgHeavy (initState cfgHeavy) 1 2).2) 1 ≠ some 2 := by
  refine ⟨by decide, by decide, by decide, by decide⟩

/-- Counterexample to C2 as stated: with a budget of 100, a drained
`put_with_weight(1, 2, 40)` followed by a drained upsert carrying an explicit
weight of 300 leaves `total_weight_used() = 300 > 100` — upsert weight
updates are not capacity-checked (the repository's own test
`update_the_value_weight_and_remove_time_to_live_of_an_existing_key` pins
`weight_of == Some(300)` under the same budget). -/
theorem total_weight_used_counterexample :
    CacheD.total_weight_used
        (drainUpsert cfgNat (fun _ _ => 40)
          (applyOp cfgNat (CacheOp.putWithWeight 1 2 40) (initState cfgNat))
          { key := 1, value := none, weight := some 300, time_to_live := none,
            remove_time_to_live := false }) = 300 ∧
    ¬ CacheD.total_weight_used
        (drainUpsert cfgNat (fun _ _ => 40)
          (applyOp cfgNat (CacheOp.putWithWeight 1 2 40) (initState cfgNat))
          { key := 1, value := none, weight := some 300, time_to_live := none,
            remove_time_to_live := false })
      ≤ cfgNat.total_cache_weight := by
  refine ⟨by decide, by decide⟩

/-- C2, amended: after any sequence of put/delete operations has fully
drained, `total_weight_used()` is at most the configured
`total_cache_weight`, and equivalently the sum of weights over the Key-Weight
Table is bounded by it; upsert weight updates (`UpdateWeight`) are applied
without a capacity check and can exceed the budget. -/
theorem total_weight_used_within_budget {Key Value : Type} [DecidableEq Key]
    (cfg : Config Key Value) (ops : List (CacheOp Key Value))
    (htot : 0 ≤ cfg.total_cache_weight) :
    CacheD.total_weight_used (applyOps cfg ops (initState cfg))
      ≤ cfg.total_cache_weight ∧
    tableWeight (applyOps cfg ops (initState cfg)).policy.table
      ≤ cfg.total_cache_weight := by
  have hinit : PolicyInv (initState cfg).policy (initState cfg).next_key_id := by
    refine ⟨rfl, htot, ?_, ?_, ?_⟩
    · intro e he
      simp [initState] at he
    · intro e he
      simp [initState] at he
    · simp [initState]
  have h := applyOps_inv cfg ops (initState cfg) hinit
  have htot_eq : (applyOps cfg ops (initState cfg)).policy.total_cache_weight
      = cfg.total_cache_weight := h.2
  constructor
  · show (applyOps cfg ops (initState cfg)).policy.weight_used
      ≤ cfg.total_cache_weight
    rw [← htot_eq]
    exact h.1.bound
  · rw [← h.1.wsum, ← htot_eq]
    exact h.1.bound

theorem total_weight_used_within_budget_witness :
    (0 : Weight) ≤ cfgNat.total_cache_weight ∧
    (CacheD.total_weight_used
        (applyOps cfgNat
          [CacheOp.putWithWeight 1 2 40, CacheOp.putWithWeight 2 3 40,
           CacheOp.del 1]
          (initState cfgNat)) ≤ cfgNat.total_cache_weight ∧
     tableWeight
        (applyOps cfgNat
          [CacheOp.putWithWeight 1 2 40, CacheOp.putWithWeight 2 3 40,
           CacheOp.del 1]
          (initState cfgNat)).policy.table ≤ cfgNat.total_cache_weight) :=
  ⟨by decide,
   total_weight_used_within_budget cfgNat
     [CacheOp.putWithWeight 1 2 40, CacheOp.putWithWeight 2 3 40,
      CacheOp.del 1] (by decide)⟩

/-- C3: after `shutdown()` returns, every public mutator returns the
shutdown error with the state untouched (no command is enqueued), every
`get`/`get_ref` returns `None` for every key, and the Store, Admission
Policy and TTL Ticker state are cleared.  (`put` computes and asserts its
weight before the shutdown check, so a positive calculated weight is
assumed for it.) -/
theorem shutdown_clears_and_blocks {Key Value : Type} [DecidableEq Key]
    (cfg : Config Key Value) (s : CacheState Key Value)
    (h : s.is_shutting_down = false) :
    (CacheD.shutdown s).is_shutting_down = true ∧
    (CacheD.shutdown s).store.entries = [] ∧
    (CacheD.shutdown s).policy.table = [] ∧
    (CacheD.shutdown s).policy.weight_used = 0 ∧
    (CacheD.shutdown s).ttl.entries = [] ∧
    (∀ k : Key, CacheD.get (CacheD.shutdown s) k = (none : Option Value)) ∧
    (∀ k : Key, CacheD.get_ref (CacheD.shutdown s) k
      = (none : Option (StoredValue Value))) ∧
    (∀ (k : Key) (v : Value) (w : Weight),
      CacheD.put_with_weight cfg (CacheD.shutdown s) k v w
        = (CommandOutcome.shutdownError, CacheD.shutdown s)) ∧
    (∀ (k : Key) (v : Value), 0 < cfg.weight_calculation_fn k v false →
      CacheD.put cfg (CacheD.shutdown s) k v
        = (CommandOutcome.shutdownError, CacheD.shutdown s)) ∧
    (∀ (k : Key) (v : Value) (ttl : Nat),
      CacheD.put_with_ttl cfg (CacheD.shutdown s) k v ttl
        = (CommandOutcome.shutdownError, CacheD.shutdown s)) ∧
    (∀ (k : Key) (v : Value) (w : Weight) (ttl : Nat),
      CacheD.put_with_weight_and_ttl cfg (CacheD.shutdown s) k v w ttl
        = (CommandOutcome.shutdownError, CacheD.shutdown s)) ∧
    (∀ k : Key, CacheD.delete (CacheD.shutdown s) k
      = (CommandOutcome.shutdownError, CacheD.shutdown s)) ∧
    (∀ (wf : Key → Value → Weight) (req : UpsertRequest Key Value),
      CacheD.upsert cfg wf (CacheD.shutdown s) req
        = (CommandOutcome.shutdownError, CacheD.shutdown s)) := by
  have hs' : CacheD.shutdown s
      = { s with
            is_shutting_down := true,
            store := Store.clear,
            policy := s.policy.clear,
            ttl := TTLTicker.clear } := by
    unfold CacheD.shutdown
    rw [if_neg (by simp [h])]
  refine ⟨?_, ?_, ?_, ?_, ?_, ?_, ?_, ?_, ?_, ?_, ?_, ?_, ?_⟩
  · rw [hs']
  · rw [hs']
    rfl
  · rw [hs']
    rfl
  · rw [hs']
    rfl
  · rw [hs']
    rfl
  · intro k
    unfold CacheD.get
    rw [hs']
    simp
  · intro k
    unfold CacheD.get_ref
    rw [hs']
    simp
  · intro k v w
    unfold CacheD.put_with_weight
    rw [hs']
    simp
  · intro k v hw
    unfold CacheD.put CacheD.put_with_weight
    rw [hs']
    rw [if_neg (by simpa using not_le.mpr hw)]
    simp
  · intro k v ttl
    unfold CacheD.put_with_ttl
    rw [hs']
    simp
  · intro k v w ttl
    unfold CacheD.put_with_weight_and_ttl
    rw [hs']
    simp
  · intro k
    unfold CacheD.delete
    rw [hs']
    simp
  · intro wf req
    unfold CacheD.upsert
    rw [hs']
    simp

theorem shutdown_clears_and_blocks_witness :
    (initState cfgNat).is_shutting_down = false ∧
    ((CacheD.shutdown (initState cfgNat)).is_shutting_down = true ∧
     (CacheD.shutdown (initState cfgNat)).store.entries = []) ∧
    CacheD.get (CacheD.shutdown (initState cfgNat)) 5 = none ∧
    CacheD.put_with_weight cfgNat (CacheD.shutdown (initState cfgNat)) 1 2 40
      = (CommandOutcome.shutdownError, CacheD.shutdown (initState cfgNat)) := by
  have h := shutdown_clears_and_blocks cfgNat (initState cfgNat) (by decide)
  exact ⟨by decide, ⟨h.1, h.2.1⟩, h.2.2.2.2.2.1 5, h.2.2.2.2.2.2.2.1 1 2 40⟩

theorem policy_delete_find_none (p : AdmissionPolicy) (kid : KeyId) :
    assocFind (p.delete kid).table kid = none := by
  unfold AdmissionPolicy.delete
  cases hf : assocFind p.table kid with
  | some e => simpa using assocFind_remove_self p.table kid
  | none => simpa using hf

theorem ttl_delete_not_mem (t : TTLTicker) (kid : KeyId) (e : Timestamp) :
    (kid, e) ∉ (TTLTicker.delete t kid e).entries := by
  simp [TTLTicker.delete, List.mem_filter]

/-- C5: for every `Delete(key)` command processed by the worker — when the
key is present in the Store, the entry is removed from the Store, its
`key_id` is removed from the Admission Policy and, when the entry had an
expiry, from the TTL Ticker, and the acknowledgement completes as
`Accepted`; when the key is absent, the acknowledgement completes as
`Rejected` and no Store, Admission Policy or TTL Ticker state changes. -/
theorem delete_command_semantics {Key Value : Type} [DecidableEq Key]
    (s : CacheState Key Value) (k : Key) :
    (∀ sv : StoredValue Value, assocFind s.store.entries k = some sv →
      (CommandExecutor.delete k s).1 = CommandStatus.Accepted ∧
      assocFind (CommandExecutor.delete k s).2.store.entries k = none ∧
      assocFind (CommandExecutor.delete k s).2.policy.table sv.key_id = none ∧
      ∀ e : Timestamp, sv.expire_after = some e →
        (sv.key_id, e) ∉ (CommandExecutor.delete k s).2.ttl.entries) ∧
    (assocFind s.store.entries k = none →
      CommandExecutor.delete k s = (CommandStatus.Rejected, s)) := by
  constructor
  · intro sv hsv
    have hdel : s.store.delete k
        = (some (sv.key_id, sv.expire_after),
           ⟨assocRemove s.store.entries k⟩) := by
      unfold Store.delete
      rw [hsv]
    cases hexp : sv.expire_after with
    | none =>
      have hred : CommandExecutor.delete k s
          = (CommandStatus.Accepted,
             { s with
                 store := ⟨assocRemove s.store.entries k⟩,
                 policy := s.policy.delete sv.key_id }) := by
        simp only [CommandExecutor.delete, hdel, hexp]
      rw [hred]
      refine ⟨rfl, assocFind_remove_self _ _, policy_delete_find_none _ _, ?_⟩
      intro e he
      cases he
    | some expiry =>
      have hred : CommandExecutor.delete k s
          = (CommandStatus.Accepted,
             { s with
                 store := ⟨assocRemove s.store.entries k⟩,
                 policy := s.policy.delete sv.key_id,
                 ttl := s.ttl.delete sv.key_id expiry }) := by
        simp only [CommandExecutor.delete, hdel, hexp]
      rw [hred]
      refine ⟨rfl, assocFind_remove_self _ _, policy_delete_find_none _ _, ?_⟩
      intro e he
      cases he
      exact ttl_delete_not_mem _ _ _
  · intro hnone
    have hdel : s.store.delete k = (none, s.store) := by
      unfold Store.delete
      rw [hnone]
    simp only [CommandExecutor.delete, hdel]

theorem delete_command_semantics_witness :
    assocFind stateAfterPutNat.store.entries 1
      = some { value := 2, key_id := 0, expire_after := none } ∧
    ((CommandExecutor.delete 1 stateAfterPutNat).1 = CommandStatus.Accepted ∧
     assocFind (CommandExecutor.delete 1 stateAfterPutNat).2.store.entries 1
       = none ∧
     assocFind (CommandExecutor.delete 1 stateAfterPutNat).2.policy.table 0
       = none ∧
     ∀ e : Timestamp,
       ({ value := 2, key_id := 0, expire_after := none }
           : StoredValue Nat).expire_after = some e →
       ((0 : KeyId), e) ∉ (CommandExecutor.delete 1 stateAfterPutNat).2.ttl.entries) ∧
    assocFind (initState cfgNat).store.entries 1 = none ∧
    CommandExecutor.delete 1 (initState cfgNat)
      = (CommandStatus.Rejected, initState cfgNat) :=
  ⟨by decide,
   (delete_command_semantics stateAfterPutNat 1).1
     { value := 2, key_id := 0, expire_after := none } (by decide),
   by decide,
   (delete_command_semantics (initState cfgNat) 1).2 (by decide)⟩

/-- C9: reads honor TTL — a stored value created with a time to live has
`expire_after` equal to `clock.now()` plus the TTL; `is_alive` is true
exactly when `expire_after` is unset or the clock has not passed it; and
`get`/`get_ref` of an entry whose `is_alive` is false return `None`. -/
theorem reads_honor_ttl (Key Value : Type) [DecidableEq Key] :
    (∀ (v : Value) (kid : KeyId) (ttl : Nat) (now : Timestamp),
      (StoredValue.expiring v kid ttl now).expire_after = some (now + ttl)) ∧
    (∀ (sv : StoredValue Value) (now : Timestamp),
      sv.is_alive now = true ↔
        (sv.expire_after = none ∨
         ∃ e, sv.expire_after = some e ∧ ¬ clockHasPassed now e = true)) ∧
    (∀ (s : CacheState Key Value) (k : Key) (sv : StoredValue Value),
      assocFind s.store.entries k = some sv →
      sv.is_alive s.now = false →
      CacheD.get s k = none ∧ CacheD.get_ref s k = none) := by
  refine ⟨?_, ?_, ?_⟩
  · intro v kid ttl now
    rfl
  · intro sv now
    cases hexp : sv.expire_after with
    | none => simp [StoredValue.is_alive, hexp]
    | some e =>
      simp only [StoredValue.is_alive, hexp]
      constructor
      · intro h
        exact Or.inr ⟨e, rfl, by simpa using h⟩
      · rintro (h | ⟨e', he', hnp⟩)
        · cases h
        · have : e' = e := (Option.some.injEq _ _).mp he'.symm
          subst this
          simpa using hnp
  · intro s k sv hfind hdead
    have hget_ref : Store.get_ref s.store k s.now = none := by
      unfold Store.get_ref
      rw [hfind]
      simp [hdead]
    constructor
    · unfold CacheD.get Store.get
      rw [hget_ref]
      simp
    · unfold CacheD.get_ref
      rw [hget_ref]
      simp

/-- A state holding an already-expired entry under key 7 (`expire_after = 1`
with the clock at 5), used by the C9 witness. -/
def expiredStateNat : CacheState Nat Nat :=
  { store := ⟨[(7, { value := 9, key_id := 3, expire_after := some 1 })]⟩,
    policy :=
      { table := [(3, (7, 40))], weight_used := 40,
        total_cache_weight := 100, freq := [] },
    ttl := ⟨[(3, 1)]⟩, now := 5, next_key_id := 4, is_shutting_down := false }

theorem reads_honor_ttl_witness :
    (StoredValue.expiring (9 : Nat) 3 10 5).expire_after = some 15 ∧
    (({ value := 9, key_id := 3, expire_after := some 1 }
        : StoredValue Nat).is_alive 5 = false) ∧
    CacheD.get expiredStateNat 7 = none ∧
    CacheD.get_ref expiredStateNat 7 = none :=
  ⟨(reads_honor_ttl Nat Nat).1 9 3 10 5,
   by decide,
   ((reads_honor_ttl Nat Nat).2.2 expiredStateNat 7
     { value := 9, key_id := 3, expire_after := some 1 }
     (by decide) (by decide)).1,
   ((reads_honor_ttl Nat Nat).2.2 expiredStateNat 7
     { value := 9, key_id := 3, expire_after := some 1 }
     (by decide) (by decide)).2⟩

/-- C10: `multi_get_iterator(ks)` yields exactly one item per requested key,
in order, each being the `get` of that key, then yields `None`; except that
while the cache is shutting down `next()` returns `None` immediately even
with unvisited keys remaining, silently truncating the iteration. -/
theorem multi_get_iterator_semantics (Key Value : Type) [DecidableEq Key]
    (s : CacheState Key Value) (keys : List Key) :
    (s.is_shutting_down = false →
      MultiGetIterator.collect s keys = keys.map (CacheD.get s)) ∧
    MultiGetIterator.next s ([] : List Key) = ((none : Option (Option Value)), []) ∧
    (s.is_shutting_down = true →
      MultiGetIterator.next s keys = (none, keys)) ∧
    (∀ (k : Key) (rest : List Key), keys = k :: rest →
      s.is_shutting_down = false →
      MultiGetIterator.next s keys = (some (CacheD.get s k), rest)) := by
  refine ⟨?_, rfl, ?_, ?_⟩
  · intro hflag
    induction keys with
    | nil => rfl
    | cons k rest ih =>
      have hnext : MultiGetIterator.next s (k :: rest)
          = (some (CacheD.get s k), rest) := by
        show (if s.is_shutting_down = true
            then ((none : Option (Option Value)), k :: rest)
            else (some (CacheD.get s k), rest))
          = (some (CacheD.get s k), rest)
        rw [if_neg (by simp [hflag])]
      unfold MultiGetIterator.collect
      rw [hnext, ih]
      rfl
  · intro hflag
    cases keys with
    | nil => rfl
    | cons k rest =>
      show (if s.is_shutting_down = true
          then ((none : Option (Option Value)), k :: rest)
          else (some (CacheD.get s k), rest))
        = (none, k :: rest)
      rw [if_pos (by simp [hflag])]
  · intro k rest hkeys hflag
    subst hkeys
    show (if s.is_shutting_down = true
        then ((none : Option (Option Value)), k :: rest)
        else (some (CacheD.get s k), rest))
      = (some (CacheD.get s k), rest)
    rw [if_neg (by simp [hflag])]

theorem multi_get_iterator_semantics_witness :
    stateAfterPutNat.is_shutting_down = false ∧
    MultiGetIterator.collect stateAfterPutNat [1, 2] = [some 2, none] ∧
    (CacheD.shutdown stateAfterPutNat).is_shutting_down = true ∧
    MultiGetIterator.next (CacheD.shutdown stateAfterPutNat) [1, 2]
      = ((none : Option (Option Nat)), [1, 2]) := by
  have hcollect := (multi_get_iterator_semantics Nat Nat stateAfterPutNat
    [1, 2]).1 (by decide)
  have htrunc := (multi_get_iterator_semantics Nat Nat
    (CacheD.shutdown stateAfterPutNat) [1, 2]).2.2.1 (by decide)
  exact ⟨by decide, by rw [hcollect]; decide, by decide, htrunc⟩

/-- The value-only upsert request on an existing key used by the C4 and C8
analyses. -/
def reqWeightNat : UpsertRequest Nat Nat :=
  { key := 1, value := none, weight := some 60, time_to_live := none,
    remove_time_to_live := false }

/-- C4 (divergence evaluated on the code): the facade's upsert dispatches
`UpdateWeight(0, 60)` for an existing key with an explicit weight, but the
worker dispatch of `command_executor.rs` has no arm for `UpdateWeight`
(`executeCommand` yields `none`); the arm it does have beyond the spec's
list, `UpdateTTL`, mutates the Store and the TTL Ticker and leaves the
Admission Policy untouched. -/
theorem update_weight_command_unhandled :
    (CacheD.upsert cfgNat (fun _ _ => 40) stateAfterPutNat reqWeightNat).1
      = CommandOutcome.sent (CommandType.UpdateWeight 0 60) ∧
    executeCommand (CommandType.UpdateWeight 0 60)
        ((CacheD.upsert cfgNat (fun _ _ => 40) stateAfterPutNat reqWeightNat).2)
      = none ∧
    (CommandExecutor.update_ttl 1 5 stateAfterPutNat).1
      = CommandStatus.Accepted ∧
    (CommandExecutor.update_ttl 1 5 stateAfterPutNat).2.policy
      = stateAfterPutNat.policy ∧
    (CommandExecutor.update_ttl 1 5 stateAfterPutNat).2.ttl
      ≠ stateAfterPutNat.ttl ∧
    (CommandExecutor.update_ttl 1 5 stateAfterPutNat).2.store
      ≠ stateAfterPutNat.store := by
  refine ⟨by decide, by decide, by decide, by decide, by decide, by decide⟩

/-- C6 (divergence evaluated on the code): with two commands queued and the
`keep_running` flag already observed false on the first iteration, the
worker of `command_executor.rs` resolves the first acknowledgement with the
command's own status, drops the receiver, and never resolves the second
acknowledgement; no acknowledgement ever carries the `Shutdown` status.
With one more live iteration both are resolved, each exactly once. -/
theorem acknowledgements_after_shutdown :
    spinResolve [CommandStatus.Accepted, CommandStatus.Rejected] 0
      = [some CommandStatus.Accepted, none] ∧
    spinResolve [CommandStatus.Accepted, CommandStatus.Rejected] 1
      = [some CommandStatus.Accepted, some CommandStatus.Rejected] ∧
    some CommandStatus.Shutdown ∉
      spinResolve [CommandStatus.Accepted, CommandStatus.Rejected] 0 ∧
    none ∈ spinResolve [CommandStatus.Accepted, CommandStatus.Rejected] 0 := by
  refine ⟨by decide, by decide, by decide, by decide⟩

/-- C7 (divergence evaluated on the code): `UpsertRequest::updated_weight`
(`upsert.rs`) passes only the key and the value to the weight calculation,
so its result cannot depend on whether a time to live was supplied, while
the claim's formula `weight_calculation_fn(key, value, has_ttl)`
(`updated_weight_spec`) does for a TTL-sensitive calculator such as the
default one. -/
theorem upsert_weight_ignores_has_ttl :
    (∀ (wf : Nat → Nat → Weight) (req : UpsertRequest Nat Nat) (ttl : Nat),
      UpsertRequest.updated_weight { req with time_to_live := some ttl } wf
        = UpsertRequest.updated_weight { req with time_to_live := none } wf) ∧
    updated_weight_spec
        ({ key := 1, value := some 2, weight := none, time_to_live := some 10,
           remove_time_to_live := false } : UpsertRequest Nat Nat)
        (fun _ _ has_ttl => if has_ttl then 64 else 40) = some 64 ∧
    updated_weight_spec
        ({ key := 1, value := some 2, weight := none, time_to_live := none,
           remove_time_to_live := false } : UpsertRequest Nat Nat)
        (fun _ _ has_ttl => if has_ttl then 64 else 40) = some 40 := by
  refine ⟨?_, by decide, by decide⟩
  intro wf req ttl
  rfl

theorem ttl_put_mem (t : TTLTicker) (kid : KeyId) (e : Timestamp) :
    (kid, e) ∈ (t.put kid e).entries :=
  List.mem_cons_self _ _

theorem ttl_update_mem_new (t : TTLTicker) (kid : KeyId) (o n : Timestamp) :
    (kid, n) ∈ (t.update kid o n).entries :=
  List.mem_cons_self _ _

theorem ttl_update_not_mem_old (t : TTLTicker) (kid : KeyId) (o n : Timestamp)
    (h : o ≠ n) : (kid, o) ∉ (t.update kid o n).entries := by
  intro hmem
  simp only [TTLTicker.update, TTLTicker.put, TTLTicker.delete] at hmem
  rcases List.mem_cons.mp hmem with heq | hmem'
  · exact h (congrArg Prod.snd heq)
  · have := List.of_mem_filter hmem'
    simp at this

/-- C8, amended: for every upsert that updates an existing key, the TTL
transition is reflected in the TTL Ticker (`Added` → `put`, `Deleted` →
`delete`, `Updated` → `update`), and an `UpdateWeight` command is dispatched
exactly when an effective updated weight is present — an explicit `weight`, a
weight recomputed from a supplied `value`, or, for `Added`/`Deleted`
transitions without either, the existing weight plus or minus the
ticker-entry size — regardless of whether it differs from the stored weight;
only when no effective weight is present (no `weight`, no `value`, and an
`Updated` or `Unchanged` transition) is the already-completed `Accepted`
acknowledgement returned.  The first conjunct ties `CacheD.upsert` on the
updated path to `CacheD.upsert_existing`; the rest characterize that
branch. -/
theorem upsert_existing_semantics (Key Value : Type) [DecidableEq Key] :
    (∀ (cfg : Config Key Value) (wf : Key → Value → Weight)
        (s : CacheState Key Value) (req : UpsertRequest Key Value),
      s.is_shutting_down = false →
      (s.store.update req.key req.value req.time_to_live
          req.remove_time_to_live s.now).1.did_update_happen = true →
      CacheD.upsert cfg wf s req
        = CacheD.upsert_existing
            { s with
                store := (s.store.update req.key req.value req.time_to_live
                  req.remove_time_to_live s.now).2 }
            (s.store.update req.key req.value req.time_to_live
              req.remove_time_to_live s.now).1
            (req.updated_weight wf)) ∧
    (∀ (s₁ : CacheState Key Value) (r : UpdateResponse Value)
        (uw : Option Weight) (kid : KeyId) (e : Timestamp),
      r.type_of_expiry_update = TypeOfExpiryUpdate.Added kid e →
      (kid, e) ∈ (CacheD.upsert_existing s₁ r uw).2.ttl.entries) ∧
    (∀ (s₁ : CacheState Key Value) (r : UpdateResponse Value)
        (uw : Option Weight) (kid : KeyId) (e : Timestamp),
      r.type_of_expiry_update = TypeOfExpiryUpdate.Deleted kid e →
      (kid, e) ∉ (CacheD.upsert_existing s₁ r uw).2.ttl.entries) ∧
    (∀ (s₁ : CacheState Key Value) (r : UpdateResponse Value)
        (uw : Option Weight) (kid : KeyId) (o n : Timestamp),
      r.type_of_expiry_update = TypeOfExpiryUpdate.Updated kid o n →
      (kid, n) ∈ (CacheD.upsert_existing s₁ r uw).2.ttl.entries ∧
      (o ≠ n → (kid, o) ∉ (CacheD.upsert_existing s₁ r uw).2.ttl.entries)) ∧
    (∀ (s₁ : CacheState Key Value) (r : UpdateResponse Value) (w : Weight),
      0 < w →
      (CacheD.upsert_existing s₁ r (some w)).1
        = CommandOutcome.sent
            (CommandType.UpdateWeight r.key_id_or_panic w)) ∧
    (∀ (s₁ : CacheState Key Value) (r : UpdateResponse Value)
        (kid : KeyId) (e : Timestamp),
      r.type_of_expiry_update = TypeOfExpiryUpdate.Added kid e →
      0 < (s₁.policy.weight_of r.key_id_or_panic).getD 0 + ttlTickerEntrySize →
      (CacheD.upsert_existing s₁ r none).1
        = CommandOutcome.sent
            (CommandType.UpdateWeight r.key_id_or_panic
              ((s₁.policy.weight_of r.key_id_or_panic).getD 0
                + ttlTickerEntrySize))) ∧
    (∀ (s₁ : CacheState Key Value) (r : UpdateResponse Value)
        (kid : KeyId) (e : Timestamp),
      r.type_of_expiry_update = TypeOfExpiryUpdate.Deleted kid e →
      0 < (s₁.policy.weight_of r.key_id_or_panic).getD 0 - ttlTickerEntrySize →
      (CacheD.upsert_existing s₁ r none).1
        = CommandOutcome.sent
            (CommandType.UpdateWeight r.key_id_or_panic
              ((s₁.policy.weight_of r.key_id_or_panic).getD 0
                - ttlTickerEntrySize))) ∧
    (∀ (s₁ : CacheState Key Value) (r : UpdateResponse Value),
      r.type_of_expiry_update = TypeOfExpiryUpdate.Unchanged →
      (CacheD.upsert_existing s₁ r none).1
        = CommandOutcome.acceptedImmediately) ∧
    (∀ (s₁ : CacheState Key Value) (r : UpdateResponse Value)
        (kid : KeyId) (o n : Timestamp),
      r.type_of_expiry_update = TypeOfExpiryUpdate.Updated kid o n →
      (CacheD.upsert_existing s₁ r none).1
        = CommandOutcome.acceptedImmediately) := by
  refine ⟨?_, ?_, ?_, ?_, ?_, ?_, ?_, ?_, ?_⟩
  · intro cfg wf s req hflag hupd
    simp only [CacheD.upsert]
    rw [if_neg (by simp [hflag]), if_neg (by simp [hupd])]
  · intro s₁ r uw kid e htr
    simp only [CacheD.upsert_existing, htr]
    cases uw with
    | some w =>
      by_cases hw : w ≤ 0 <;> simp [hw, ttl_put_mem]
    | none =>
      by_cases hw : (s₁.policy.weight_of r.key_id_or_panic).getD 0
          + ttlTickerEntrySize ≤ 0 <;> simp [hw, ttl_put_mem]
  · intro s₁ r uw kid e htr
    simp only [CacheD.upsert_existing, htr]
    cases uw with
    | some w =>
      by_cases hw : w ≤ 0 <;> simp [hw, ttl_delete_not_mem]
    | none =>
      by_cases hw : (s₁.policy.weight_of r.key_id_or_panic).getD 0
          - ttlTickerEntrySize ≤ 0 <;> simp [hw, ttl_delete_not_mem]
  · intro s₁ r uw kid o n htr
    simp only [CacheD.upsert_existing, htr]
    cases uw with
    | some w =>
      by_cases hw : w ≤ 0
      · simp only [if_pos hw]
        refine ⟨by simp [ttl_update_mem_new], fun hne => ?_⟩
        exact ttl_update_not_mem_old _ _ _ _ hne
      · simp only [if_neg hw]
        refine ⟨by simp [ttl_update_mem_new], fun hne => ?_⟩
        exact ttl_update_not_mem_old _ _ _ _ hne
    | none =>
      refine ⟨by simp [ttl_update_mem_new], fun hne => ?_⟩
      exact ttl_update_not_mem_old _ _ _ _ hne
  · intro s₁ r w hpos
    cases htr : r.type_of_expiry_update <;>
      simp [CacheD.upsert_existing, htr, not_le.mpr hpos]
  · intro s₁ r kid e htr hpos
    simp [CacheD.upsert_existing, htr, not_le.mpr hpos]
  · intro s₁ r kid e htr hpos
    simp [CacheD.upsert_existing, htr, not_le.mpr hpos]
  · intro s₁ r htr
    simp [CacheD.upsert_existing, htr]
  · intro s₁ r kid o n htr
    simp [CacheD.upsert_existing, htr]

/-- A value-only upsert request (no weight, no TTL change) on an existing
key, used by the C8 counterexample. -/
def reqValueNat : UpsertRequest Nat Nat :=
  { key := 1, value := some 9, weight := none, time_to_live := none,
    remove_time_to_live := false }

/-- Counterexample to C8 as stated: an upsert of an existing key that
supplies only a new value — no explicit weight and an `Unchanged` TTL
transition, so no TTL-induced ticker-entry delta — still dispatches
`UpdateWeight` (with the weight recomputed from the value), where the
claim's "otherwise an already-completed Accepted acknowledgement is
returned" demands no dispatch. -/
theorem upsert_dispatch_counterexample :
    reqValueNat.weight = none ∧
    (stateAfterPutNat.store.update reqValueNat.key reqValueNat.value
        reqValueNat.time_to_live reqValueNat.remove_time_to_live
        stateAfterPutNat.now).1.type_of_expiry_update
      = TypeOfExpiryUpdate.Unchanged ∧
    (CacheD.upsert cfgNat (fun _ _ => 7) stateAfterPutNat reqValueNat).1
      = CommandOutcome.sent (CommandType.UpdateWeight 0 7) ∧
    (CacheD.upsert cfgNat (fun _ _ => 7) stateAfterPutNat reqValueNat).1
      ≠ CommandOutcome.acceptedImmediately := by
  refine ⟨by decide, by decide, by decide, by decide⟩

theorem upsert_existing_semantics_witness :
    CacheD.upsert cfgNat (fun _ _ => 40) stateAfterPutNat reqWeightNat
      = CacheD.upsert_existing
          { stateAfterPutNat with
              store := (stateAfterPutNat.store.update reqWeightNat.key
                reqWeightNat.value reqWeightNat.time_to_live
                reqWeightNat.remove_time_to_live stateAfterPutNat.now).2 }
          (stateAfterPutNat.store.update reqWeightNat.key reqWeightNat.value
            reqWeightNat.time_to_live reqWeightNat.remove_time_to_live
            stateAfterPutNat.now).1
          (reqWeightNat.updated_weight (fun _ _ => 40)) ∧
    (CacheD.upsert_existing stateAfterPutNat
        ({ did_update_happen := true, key_id := some 0, value := none,
           type_of_expiry_update := TypeOfExpiryUpdate.Unchanged }
          : UpdateResponse Nat) (some 60)).1
      = CommandOutcome.sent (CommandType.UpdateWeight 0 60) :=
  ⟨(upsert_existing_semantics Nat Nat).1 cfgNat (fun _ _ => 40)
     stateAfterPutNat reqWeightNat (by decide) (by decide),
   (upsert_existing_semantics Nat Nat).2.2.2.2.1 stateAfterPutNat
     { did_update_happen := true, key_id := some 0, value := none,
       type_of_expiry_update := TypeOfExpiryUpdate.Unchanged } 60 (by decide)⟩
